import Mathlib

/-!
# Custom UART register model

A shallow embedding of `custom-devices/custom-uart.c`: the register file
(`data`, `status`, `control`), the 16-entry receive FIFO with its in-place
shift dequeue, the transmit path and the interrupt requests.

Conventions of the embedding:

* `uint8_t`, `uint32_t`, `uint64_t` values are `Nat`; a truncating store is an
  explicit `% 2 ^ w`.  `int` values (`rx_count`) are `Int`.
* `rx_fifo` is a `List Nat`; the C array has 16 entries, which is the
  well-formedness condition `FifoWF`.  Every array access is checked against
  the list, an access outside it makes the operation return `none`.
* Calls on the outside world (`qemu_irq_raise`, `qemu_irq_lower`,
  `qemu_chr_fe_write_all`) are recorded, in program order, as a list of
  `Event`s.  The diagnostic output (`printf`, `qemu_log_mask`) is not modelled.
* The test programs of `examples/m0/src` reach the device through the bus of the
  board of `custom-devices/microbit-custom.c`, which maps the device window at
  one fixed address; every bus access a program makes is logged.
-/

namespace CustomUart

/-! ## Constants -/

/-- Register offset of DATA (`#define UART_DATA 0x00`). -/
def UART_DATA : Nat := 0x00
/-- Register offset of STATUS (`#define UART_STATUS 0x04`). -/
def UART_STATUS : Nat := 0x04
/-- Register offset of CONTROL (`#define UART_CONTROL 0x08`). -/
def UART_CONTROL : Nat := 0x08

/-- Status bit 0, transmit ready (`1 << 0`). -/
def STATUS_TX_READY : Nat := 1 <<< 0
/-- Status bit 1, receive data available (`1 << 1`). -/
def STATUS_RX_AVAIL : Nat := 1 <<< 1

/-- Control bit 0, transmit enable (`1 << 0`). -/
def CTRL_TX_EN : Nat := 1 <<< 0
/-- Control bit 1, receive enable (`1 << 1`). -/
def CTRL_RX_EN : Nat := 1 <<< 1
/-- Control bit 2, transmit interrupt enable (`1 << 2`). -/
def CTRL_TX_INT_EN : Nat := 1 <<< 2
/-- Control bit 3, receive interrupt enable (`1 << 3`). -/
def CTRL_RX_INT_EN : Nat := 1 <<< 3

/-- The value of `sizeof(s->rx_fifo)` for `uint8_t rx_fifo[16]`. -/
def RX_FIFO_SIZE : Nat := 16

/-! ## Machine arithmetic -/

/-- The operand `~x` of `s->status &= ~x`, as the 32-bit mask it becomes when
converted to the type of `status`. -/
def not32 (x : Nat) : Nat := 0xFFFFFFFF ^^^ (x % 2 ^ 32)

/-- Conversion of an `int` to `size_t` (64 bits), as done by the usual
arithmetic conversions when an `int` meets a `sizeof`. -/
def to_size_t (x : Int) : Nat := (x % 2 ^ 64).toNat

/-- Conversion of a 64-bit unsigned value to `int` (two's complement
wrap-around to 32 bits). -/
def to_int (x : Nat) : Int := ((x : Int) + 2 ^ 31) % 2 ^ 32 - 2 ^ 31

/-! ## Data model -/

/-- The device fields of `CustomUartState` (the QEMU object header, the memory
region, the character backend and the interrupt line are outside world). -/
structure CustomUartState where
  data : Nat
  status : Nat
  control : Nat
  rx_fifo : List Nat
  rx_count : Int
deriving DecidableEq, Repr

/-- A call the device makes on its collaborators. -/
inductive Event where
  | irq_raise : Event
  | irq_lower : Event
  | chr_write (buf : List Nat) : Event
deriving DecidableEq, Repr

/-- The array `rx_fifo` has its 16 entries. -/
def FifoWF (s : CustomUartState) : Prop := s.rx_fifo.length = RX_FIFO_SIZE

instance (s : CustomUartState) : Decidable (FifoWF s) := by
  unfold FifoWF; infer_instance

/-- The capacity bound `0 <= rx_count <= 16`. -/
def CountInv (s : CustomUartState) : Prop :=
  0 ≤ s.rx_count ∧ s.rx_count ≤ (RX_FIFO_SIZE : Int)

instance (s : CustomUartState) : Decidable (CountInv s) := by
  unfold CountInv; infer_instance

/-- Checked load `a[i]` from the FIFO array. -/
def fifo_load (a : List Nat) (i : Int) : Option Nat :=
  if 0 ≤ i then a[i.toNat]? else none

/-- Checked store `a[i] = v` into the FIFO array. -/
def fifo_store (a : List Nat) (i : Int) (v : Nat) : Option (List Nat) :=
  if 0 ≤ i ∧ i.toNat < a.length then some (a.set i.toNat v) else none

/-! ## Register reads -/

/-- The shift loop of the DATA read,
`for (int i = 0; i < s->rx_count - 1; i++) s->rx_fifo[i] = s->rx_fifo[i + 1];`
entered with loop counter `i` and `n` iterations left to run
(the loop changes neither `rx_count` nor anything but `rx_fifo`). -/
def shift_loop : Nat → Int → List Nat → Option (List Nat)
  | 0, _, a => some a
  | n + 1, i, a =>
    match fifo_load a (i + 1) with
    | none => none
    | some v =>
      match fifo_store a i v with
      | none => none
      | some a1 => shift_loop n (i + 1) a1

/-- The function `custom_uart_read`: the returned value, the new state and the
requests made.  The access `size` is not looked at by the function. -/
def custom_uart_read (s : CustomUartState) (offset : Nat) (_size : Nat) :
    Option (Nat × CustomUartState × List Event) :=
  if offset = UART_DATA then
    if 0 < s.rx_count then
      match fifo_load s.rx_fifo 0 with
      | none => none
      | some retval =>
        match shift_loop (s.rx_count - 1).toNat 0 s.rx_fifo with
        | none => none
        | some a =>
          let s1 := { s with rx_fifo := a, rx_count := s.rx_count - 1 }
          if s1.rx_count = 0 then
            some (retval, { s1 with status := s1.status &&& not32 STATUS_RX_AVAIL }, [])
          else
            some (retval, s1, [])
    else
      some (0, s, [])
  else if offset = UART_STATUS then
    some (s.status, s, [])
  else if offset = UART_CONTROL then
    some (s.control, s, [])
  else
    some (0, s, [])

/-! ## Register writes -/

/-- The function `custom_uart_write`: the new state and the requests made. -/
def custom_uart_write (s : CustomUartState) (offset : Nat) (value : Nat) (_size : Nat) :
    CustomUartState × List Event :=
  if offset = UART_DATA then
    if s.control &&& CTRL_TX_EN ≠ 0 then
      let ch := value &&& 0xFF
      let s1 := { s with status := s.status ||| STATUS_TX_READY }
      if s.control &&& CTRL_TX_INT_EN ≠ 0 then
        (s1, [Event.chr_write [ch], Event.irq_raise])
      else
        (s1, [Event.chr_write [ch]])
    else
      (s, [])
  else if offset = UART_CONTROL then
    let s1 := { s with control := value % 2 ^ 32 }
    if s1.control &&& CTRL_TX_EN ≠ 0 then
      ({ s1 with status := s1.status ||| STATUS_TX_READY }, [])
    else
      ({ s1 with status := s1.status &&& not32 STATUS_TX_READY }, [])
  else if offset = UART_STATUS then
    (s, [])
  else
    (s, [])

/-! ## Backend delivery -/

/-- The deposit loop of `custom_uart_receive`,
`for (i = 0; i < size && s->rx_count < sizeof(s->rx_fifo); i++)
   s->rx_fifo[s->rx_count++] = buf[i];`
over the bytes of `buf` not yet offered. -/
def receive_loop : List Nat → CustomUartState → Option CustomUartState
  | [], s => some s
  | b :: rest, s =>
    if to_size_t s.rx_count < RX_FIFO_SIZE then
      match fifo_store s.rx_fifo s.rx_count b with
      | none => none
      | some a => receive_loop rest { s with rx_fifo := a, rx_count := s.rx_count + 1 }
    else
      some s

/-- The function `custom_uart_receive`, `buf` holding the `size` offered bytes. -/
def custom_uart_receive (s : CustomUartState) (buf : List Nat) :
    Option (CustomUartState × List Event) :=
  if ¬ (s.control &&& CTRL_RX_EN ≠ 0) then
    some (s, [])
  else
    match receive_loop buf s with
    | none => none
    | some s1 =>
      if 0 < s1.rx_count then
        let s2 := { s1 with status := s1.status ||| STATUS_RX_AVAIL }
        if s2.control &&& CTRL_RX_INT_EN ≠ 0 then
          some (s2, [Event.irq_raise])
        else
          some (s2, [])
      else
        some (s1, [])

/-- The function `custom_uart_can_receive`. -/
def custom_uart_can_receive (s : CustomUartState) : Int :=
  if ¬ (s.control &&& CTRL_RX_EN ≠ 0) then
    0
  else
    to_int ((RX_FIFO_SIZE + 2 ^ 64 - to_size_t s.rx_count) % 2 ^ 64)

/-! ## Reset -/

/-- The function `custom_uart_reset`. -/
def custom_uart_reset (s : CustomUartState) : CustomUartState × List Event :=
  ({ s with data := 0, status := STATUS_TX_READY, control := 0, rx_count := 0 },
   [Event.irq_lower])

/-! ## Sequences of operations -/

/-- An operation on a running device: a register transaction of the bus or a
delivery of the character backend. -/
inductive Op where
  | read (offset size : Nat) : Op
  | write (offset value size : Nat) : Op
  | receive (buf : List Nat) : Op
deriving DecidableEq, Repr

/-- One operation: the values read (none or one), the new state, the requests. -/
def step (s : CustomUartState) : Op → Option (List Nat × CustomUartState × List Event)
  | Op.read offset size =>
    match custom_uart_read s offset size with
    | none => none
    | some (v, s1, ev) => some ([v], s1, ev)
  | Op.write offset value size =>
    let r := custom_uart_write s offset value size
    some ([], r.1, r.2)
  | Op.receive buf =>
    match custom_uart_receive s buf with
    | none => none
    | some (s1, ev) => some ([], s1, ev)

/-- A sequence of operations, left to right: all values read, the final state,
all requests made. -/
def run : List Op → CustomUartState → Option (List Nat × CustomUartState × List Event)
  | [], s => some ([], s, [])
  | op :: ops, s =>
    match step s op with
    | none => none
    | some (vs, s1, ev) =>
      match run ops s1 with
      | none => none
      | some (ws, s2, ev2) => some (vs ++ ws, s2, ev ++ ev2)

/-- The bytes queued in the FIFO, front first: the first `rx_count` entries. -/
def queued (s : CustomUartState) : List Nat := s.rx_fifo.take s.rx_count.toNat

/-- The number of interrupt-raise requests among the events. -/
def raises (ev : List Event) : Nat := ev.count Event.irq_raise

/-- RX_AVAIL is set exactly when the FIFO holds a byte. -/
def RxAvailInv (s : CustomUartState) : Prop :=
  s.status &&& STATUS_RX_AVAIL ≠ 0 ↔ 0 < s.rx_count

/-- TX_READY is set exactly when TX_EN is set. -/
def TxReadyInv (s : CustomUartState) : Prop :=
  s.status &&& STATUS_TX_READY ≠ 0 ↔ s.control &&& CTRL_TX_EN ≠ 0

/-- The operation is a write to the CONTROL register. -/
def Op.isControlWrite : Op → Bool
  | Op.write offset _ _ => decide (offset = UART_CONTROL)
  | _ => false

/-- The device memory as allocated (all zero), before the first reset. -/
def zeroed : CustomUartState :=
  { data := 0, status := 0, control := 0, rx_fifo := List.replicate 16 0, rx_count := 0 }

/-! ## The interrupt line -/

/-- The level of the interrupt line after the requests `ev`, starting from level `l`:
a raise request drives it high, a lower request drives it low, a backend write leaves
it as it is. -/
def irq_level : Bool → List Event → Bool
  | l, [] => l
  | _, Event.irq_raise :: ev => irq_level true ev
  | _, Event.irq_lower :: ev => irq_level false ev
  | l, Event.chr_write _ :: ev => irq_level l ev

/-- The bytes of a delivery are `uint8_t` values. -/
def Op.bytesOk : Op → Prop
  | Op.receive buf => ∀ b ∈ buf, b < 256
  | _ => True

/-! ## The board: the device on the system bus

The firmware addresses the registers by absolute address; the board decides which
accesses reach the device.  What lies outside the device window (the rest of the
SoC, or nothing) is not part of this development: a load there returns the value
`other n addr`, where `n` counts the loads served outside the device so far, and a
store there has no effect on the device. -/

namespace microbit_custom

/-- The address the machine maps the device at (`#define CUSTOM_UART_BASE 0x60000000`,
used in `sysbus_mmio_map(SYS_BUS_DEVICE(s->custom_uart), 0, CUSTOM_UART_BASE)`). -/
def CUSTOM_UART_BASE : Nat := 0x60000000

end microbit_custom

/-- The size of the device window, the `0x100` of `memory_region_init_io` in the
instance initialiser of the device. -/
def CUSTOM_UART_MMIO_SIZE : Nat := 0x100

/-- A bus access made by the processor, with the value loaded or stored. -/
inductive Access where
  | load (addr size value : Nat) : Access
  | store (addr size value : Nat) : Access
deriving DecidableEq, Repr

/-- The machine as a program sees it: the device, the requests the device has made,
the bus accesses the program has made (both oldest first), and the number of loads
served outside the device. -/
structure Board where
  uart : CustomUartState
  events : List Event
  log : List Access
  other_loads : Nat
deriving DecidableEq, Repr

/-- A load of `size` bytes at `addr`, the device window being mapped at `mapped`:
inside the window it is `custom_uart_read` at the offset into the window. -/
def bus_load (mapped : Nat) (other : Nat → Nat → Nat) (b : Board) (addr size : Nat) :
    Option (Nat × Board) :=
  if mapped ≤ addr ∧ addr < mapped + CUSTOM_UART_MMIO_SIZE then
    match custom_uart_read b.uart (addr - mapped) size with
    | none => none
    | some (v, u, ev) =>
      some (v, { b with uart := u, events := b.events ++ ev,
                        log := b.log ++ [Access.load addr size v] })
  else
    some (other b.other_loads addr,
          { b with log := b.log ++ [Access.load addr size (other b.other_loads addr)],
                   other_loads := b.other_loads + 1 })

/-- A store of `size` bytes of `value` at `addr`, the device window being mapped at
`mapped`: inside the window it is `custom_uart_write` at the offset into the window. -/
def bus_store (mapped : Nat) (b : Board) (addr size value : Nat) : Board :=
  if mapped ≤ addr ∧ addr < mapped + CUSTOM_UART_MMIO_SIZE then
    { b with uart := (custom_uart_write b.uart (addr - mapped) value size).1,
             events := b.events ++ (custom_uart_write b.uart (addr - mapped) value size).2,
             log := b.log ++ [Access.store addr size value] }
  else
    { b with log := b.log ++ [Access.store addr size value] }

/-- The board right after the reset of the device, before the program has run. -/
def board_at_reset (s0 : CustomUartState) : Board :=
  { uart := (custom_uart_reset s0).1, events := [], log := [], other_loads := 0 }

/-! ## Firmware of `examples/m0/src/custom_uart_test.c`

The registers are `volatile uint32_t` at fixed addresses, so every access is a 4-byte
bus access; a value loaded is a `uint32_t`. -/

namespace custom_uart_test

/-- The base address the program uses (`#define CUSTOM_UART_BASE 0x50000000`). -/
def CUSTOM_UART_BASE : Nat := 0x50000000
/-- Address of the DATA register, `CUSTOM_UART_BASE + 0x00`. -/
def UART_DATA : Nat := CUSTOM_UART_BASE + 0x00
/-- Address of the STATUS register, `CUSTOM_UART_BASE + 0x04`. -/
def UART_STATUS : Nat := CUSTOM_UART_BASE + 0x04
/-- Address of the CONTROL register, `CUSTOM_UART_BASE + 0x08`. -/
def UART_CONTROL : Nat := CUSTOM_UART_BASE + 0x08
/-- The program's `STATUS_TX_READY`, `1 << 0`. -/
def STATUS_TX_READY : Nat := 1 <<< 0
/-- The program's `CTRL_TX_EN`, `1 << 0`. -/
def CTRL_TX_EN : Nat := 1 <<< 0
/-- The program's `CTRL_RX_EN`, `1 << 1`. -/
def CTRL_RX_EN : Nat := 1 <<< 1

/-- The function `custom_uart_init`: `UART_CONTROL = CTRL_TX_EN | CTRL_RX_EN;`. -/
def custom_uart_init (mapped : Nat) (b : Board) : Board :=
  bus_store mapped b UART_CONTROL 4 (CTRL_TX_EN ||| CTRL_RX_EN)

/-- The wait loop `while (!(UART_STATUS & STATUS_TX_READY)) { }` of
`custom_uart_putchar`, with `fuel` bounding the number of loads of STATUS. -/
def wait_tx_ready (mapped : Nat) (other : Nat → Nat → Nat) : Nat → Board → Option Board
  | 0, _ => none
  | fuel + 1, b =>
    match bus_load mapped other b UART_STATUS 4 with
    | none => none
    | some (v, b1) =>
      if ¬ (v % 2 ^ 32 &&& STATUS_TX_READY ≠ 0) then
        wait_tx_ready mapped other fuel b1
      else
        some b1

/-- The function `custom_uart_putchar`: wait for TX_READY, then `UART_DATA = c;`. -/
def custom_uart_putchar (mapped : Nat) (other : Nat → Nat → Nat) (fuel : Nat) (b : Board)
    (c : Nat) : Option Board :=
  match wait_tx_ready mapped other fuel b with
  | none => none
  | some b1 => some (bus_store mapped b1 UART_DATA 4 c)

/-- The function `custom_uart_puts`: `while (*str) { custom_uart_putchar(*str); str++; }`
over the characters at `str`; the end of the list stands for the terminating NUL. -/
def custom_uart_puts (mapped : Nat) (other : Nat → Nat → Nat) (fuel : Nat) :
    List Nat → Board → Option Board
  | [], b => some b
  | c :: str, b =>
    if c = 0 then
      some b
    else
      match custom_uart_putchar mapped other fuel b c with
      | none => none
      | some b1 => custom_uart_puts mapped other fuel str b1

end custom_uart_test

/-! ## Firmware of `examples/m0/src/test_custom_uart.c` -/

namespace test_custom_uart

/-- The base address the program uses (`#define CUSTOM_UART_BASE 0x60000000`). -/
def CUSTOM_UART_BASE : Nat := 0x60000000
/-- Address of the DATA register, `CUSTOM_UART_BASE + 0x00`. -/
def UART_DATA : Nat := CUSTOM_UART_BASE + 0x00
/-- Address of the STATUS register, `CUSTOM_UART_BASE + 0x04`. -/
def UART_STATUS : Nat := CUSTOM_UART_BASE + 0x04
/-- Address of the CONTROL register, `CUSTOM_UART_BASE + 0x08`. -/
def UART_CONTROL : Nat := CUSTOM_UART_BASE + 0x08
/-- The program's `STATUS_TX_READY`, `1 << 0`. -/
def STATUS_TX_READY : Nat := 1 <<< 0
/-- The program's `CTRL_TX_EN`, `1 << 0`. -/
def CTRL_TX_EN : Nat := 1 <<< 0
/-- The program's `CTRL_RX_EN`, `1 << 1`. -/
def CTRL_RX_EN : Nat := 1 <<< 1

/-- The function `custom_uart_init`: load STATUS, `UART_CONTROL = CTRL_TX_EN | CTRL_RX_EN;`,
load STATUS again (the semihosting output is not modelled). -/
def custom_uart_init (mapped : Nat) (other : Nat → Nat → Nat) (b : Board) : Option Board :=
  match bus_load mapped other b UART_STATUS 4 with
  | none => none
  | some (_, b1) =>
    match bus_load mapped other (bus_store mapped b1 UART_CONTROL 4 (CTRL_TX_EN ||| CTRL_RX_EN))
        UART_STATUS 4 with
    | none => none
    | some (_, b3) => some b3

/-- The function `custom_uart_putchar`: load STATUS once; return early if TX_READY is
clear, else `UART_DATA = c;`. -/
def custom_uart_putchar (mapped : Nat) (other : Nat → Nat → Nat) (b : Board) (c : Nat) :
    Option Board :=
  match bus_load mapped other b UART_STATUS 4 with
  | none => none
  | some (status, b1) =>
    if ¬ (status % 2 ^ 32 &&& STATUS_TX_READY ≠ 0) then
      some b1
    else
      some (bus_store mapped b1 UART_DATA 4 c)

/-- The function `custom_uart_puts`, as in the other program. -/
def custom_uart_puts (mapped : Nat) (other : Nat → Nat → Nat) : List Nat → Board → Option Board
  | [], b => some b
  | c :: str, b =>
    if c = 0 then
      some b
    else
      match custom_uart_putchar mapped other b c with
      | none => none
      | some b1 => custom_uart_puts mapped other str b1

end test_custom_uart

/-! ## The bounded queue of the specification -/

namespace SpecQueue

/-- The capacity of the receive FIFO of the specification. -/
def capacity : Nat := 16

/-- The push-back (`deposit`) of the specification: enqueue at most
`capacity - length` bytes of the offered sequence, in order, and discard the rest. -/
def push_back (q : List Nat) (bs : List Nat) : List Nat :=
  q ++ bs.take (capacity - q.length)

/-- The pop-front of the specification: the front byte, if there is one, and the
queue left. -/
def pop_front : List Nat → Option Nat × List Nat
  | [] => (none, [])
  | b :: q => (some b, q)

/-- An operation on the queue: a backend delivery or a DATA read of some size. -/
inductive QOp where
  | deliver (bs : List Nat) : QOp
  | read_data (size : Nat) : QOp
deriving DecidableEq, Repr

/-- A sequence of queue operations: the values the DATA reads return (the front byte,
or 0 from an empty queue) and the queue left. -/
def run : List QOp → List Nat → List Nat × List Nat
  | [], q => ([], q)
  | QOp.deliver bs :: ops, q => run ops (push_back q bs)
  | QOp.read_data _ :: ops, q =>
    ((pop_front q).1.getD 0 :: (run ops (pop_front q).2).1, (run ops (pop_front q).2).2)

/-- The device operation a queue operation stands for. -/
def QOp.toOp : QOp → Op
  | QOp.deliver bs => Op.receive bs
  | QOp.read_data size => Op.read UART_DATA size

end SpecQueue

instance (op : Op) : Decidable op.bytesOk := by
  cases op <;> unfold Op.bytesOk <;> infer_instance

/-- The value ranges of a running device: only status bits 0 and 1 are ever set,
`control` is a 32-bit value, the FIFO entries are bytes. -/
def RangeInv (s : CustomUartState) : Prop :=
  s.status ≤ 3 ∧ s.control < 2 ^ 32 ∧ ∀ x ∈ s.rx_fifo, x < 256

/-! ## Bit-level facts -/

theorem or_and_mask (x a m : Nat) : (x ||| a) &&& m = (x &&& m) ||| (a &&& m) := by
  apply Nat.eq_of_testBit_eq
  intro i
  simp only [Nat.testBit_and, Nat.testBit_or]
  cases x.testBit i <;> cases a.testBit i <;> cases m.testBit i <;> rfl

theorem or_and_self (x m : Nat) : (x ||| m) &&& m = m := by
  apply Nat.eq_of_testBit_eq
  intro i
  simp only [Nat.testBit_and, Nat.testBit_or]
  cases x.testBit i <;> cases m.testBit i <;> rfl

/-- Setting a bit leaves a disjoint bit alone. -/
theorem or_and_disjoint (x a m : Nat) (h : a &&& m = 0) : (x ||| a) &&& m = x &&& m := by
  rw [or_and_mask, h, Nat.or_zero]

/-- Clearing with a mask that keeps `m` leaves `m` alone. -/
theorem and_and_keep (x a m : Nat) (h : a &&& m = m) : (x &&& a) &&& m = x &&& m := by
  rw [Nat.and_assoc, h]

/-- Clearing with a mask that excludes `m` clears `m`. -/
theorem and_and_clear (x a m : Nat) (h : a &&& m = 0) : (x &&& a) &&& m = 0 := by
  rw [Nat.and_assoc, h, Nat.and_zero]

theorem and_ff (x : Nat) : x &&& 0xFF = x % 256 :=
  Nat.and_pow_two_sub_one_eq_mod x 8

theorem to_size_t_of_nonneg (x : Int) (h0 : 0 ≤ x) (h1 : x ≤ 16) : to_size_t x = x.toNat := by
  unfold to_size_t
  omega

theorem status_set_rx_rx (x : Nat) : (x ||| STATUS_RX_AVAIL) &&& STATUS_RX_AVAIL ≠ 0 := by
  rw [or_and_self]; decide

theorem status_clr_rx_rx (x : Nat) : (x &&& not32 STATUS_RX_AVAIL) &&& STATUS_RX_AVAIL = 0 :=
  and_and_clear _ _ _ (by decide)

theorem status_set_rx_tx (x : Nat) :
    (x ||| STATUS_RX_AVAIL) &&& STATUS_TX_READY = x &&& STATUS_TX_READY :=
  or_and_disjoint _ _ _ (by decide)

theorem status_clr_rx_tx (x : Nat) :
    (x &&& not32 STATUS_RX_AVAIL) &&& STATUS_TX_READY = x &&& STATUS_TX_READY :=
  and_and_keep _ _ _ (by decide)

theorem status_set_tx_tx (x : Nat) : (x ||| STATUS_TX_READY) &&& STATUS_TX_READY ≠ 0 := by
  rw [or_and_self]; decide

theorem status_clr_tx_tx (x : Nat) : (x &&& not32 STATUS_TX_READY) &&& STATUS_TX_READY = 0 :=
  and_and_clear _ _ _ (by decide)

theorem status_set_tx_rx (x : Nat) :
    (x ||| STATUS_TX_READY) &&& STATUS_RX_AVAIL = x &&& STATUS_RX_AVAIL :=
  or_and_disjoint _ _ _ (by decide)

theorem status_clr_tx_rx (x : Nat) :
    (x &&& not32 STATUS_TX_READY) &&& STATUS_RX_AVAIL = x &&& STATUS_RX_AVAIL :=
  and_and_keep _ _ _ (by decide)

/-! ## The FIFO loops -/

theorem fifo_load_nat (a : List Nat) (i : Nat) : fifo_load a (i : Int) = a[i]? := by
  simp [fifo_load]

theorem fifo_store_nat (a : List Nat) (i : Nat) (v : Nat) (h : i < a.length) :
    fifo_store a (i : Int) v = some (a.set i v) := by
  simp [fifo_store, h]

/-- The shift loop stays inside the array and moves entries `i+1 .. i+n` one place
down, leaving every other entry as it was. -/
theorem shift_loop_spec : ∀ (n i : Nat) (a : List Nat), i + n < a.length →
    ∃ a', shift_loop n (i : Int) a = some a' ∧ a'.length = a.length ∧
      ∀ j, a'[j]? = if i ≤ j ∧ j < i + n then a[j + 1]? else a[j]?
  | 0, i, a, _ => ⟨a, rfl, rfl, by intro j; rw [if_neg]; omega⟩
  | n + 1, i, a, h => by
    have h1 : i + 1 < a.length := by omega
    obtain ⟨v, hv⟩ : ∃ v, a[i + 1]? = some v := ⟨a[i + 1], by simp [h1]⟩
    obtain ⟨a', ha', hlen, hget⟩ := shift_loop_spec n (i + 1) (a.set i v) (by simp; omega)
    refine ⟨a', ?_, ?_, ?_⟩
    · have hc : (i : Int) + 1 = ((i + 1 : Nat) : Int) := by push_cast; rfl
      simp only [shift_loop]
      rw [hc, fifo_load_nat, hv]
      simp only []
      rw [fifo_store_nat _ _ _ (by omega)]
      simp only []
      exact ha'
    · simpa using hlen
    · intro j
      rw [hget j]
      simp only [List.getElem?_set]
      by_cases hj : i = j
      · subst hj
        simp [hv]
        omega
      · split_ifs <;> first | rfl | omega

/-- A DATA read on a non-empty FIFO that respects the capacity bound succeeds: it
returns the front byte, leaves the rest of the queue, decrements `rx_count`, clears
RX_AVAIL exactly when the queue becomes empty, and makes no request. -/
theorem read_data_pop (s : CustomUartState) (size : Nat) (hwf : FifoWF s)
    (hinv : CountInv s) (hpos : 0 < s.rx_count) :
    ∃ b s', custom_uart_read s UART_DATA size = some (b, s', []) ∧
      queued s = b :: queued s' ∧ s'.rx_count = s.rx_count - 1 ∧ FifoWF s' ∧
      s'.control = s.control ∧ s'.data = s.data ∧
      s'.status = (if s.rx_count = 1 then s.status &&& not32 STATUS_RX_AVAIL else s.status) := by
  obtain ⟨hlo, hhi⟩ := hinv
  unfold FifoWF at hwf
  have hR : RX_FIFO_SIZE = 16 := rfl
  rw [hR] at hwf hhi
  obtain ⟨c, hc⟩ : ∃ c : Nat, s.rx_count = (c : Int) + 1 := ⟨(s.rx_count - 1).toNat, by omega⟩
  have hc16 : c + 1 ≤ 16 := by omega
  obtain ⟨a', ha', hlen, hget⟩ := shift_loop_spec c 0 s.rx_fifo (by omega)
  obtain ⟨b, hb⟩ : ∃ b, s.rx_fifo[0]? = some b := ⟨s.rx_fifo[0], by simp [hwf]⟩
  have hload : fifo_load s.rx_fifo 0 = some b := by
    have := fifo_load_nat s.rx_fifo 0
    simpa [hb] using this
  have hn : (s.rx_count - 1).toNat = c := by omega
  have hread : custom_uart_read s UART_DATA size
      = some (b, { s with rx_fifo := a', rx_count := s.rx_count - 1,
                          status := if s.rx_count = 1 then s.status &&& not32 STATUS_RX_AVAIL
                                    else s.status }, []) := by
    have hsh : shift_loop c 0 s.rx_fifo = some a' := by simpa using ha'
    unfold custom_uart_read
    rw [if_pos rfl, if_pos hpos, hload, hn]
    simp only [hsh]
    by_cases h1 : s.rx_count = 1
    · have h0 : s.rx_count - 1 = 0 := by omega
      simp [h1]
    · have h0 : ¬ (s.rx_count - 1 = 0) := by omega
      simp [h1, h0]
  refine ⟨b, _, hread, ?_, rfl, ?_, rfl, rfl, rfl⟩
  · have hq1 : (s.rx_count).toNat = c + 1 := by omega
    have hq2 : (s.rx_count - 1).toNat = c := hn
    simp only [queued, hq1, hq2]
    apply List.ext_getElem?
    intro j
    rcases j with _ | j
    · simp [List.getElem?_take, hb]
    · simp only [List.getElem?_take, List.getElem?_cons_succ, hget]
      by_cases hj : j < c
      · simp [hj]
      · simp [hj]
  · show a'.length = 16
    rw [hlen, hwf]

/-- The deposit loop stays inside the array: it appends the first
`16 - rx_count` offered bytes behind the queued ones and changes nothing else. -/
theorem receive_loop_spec : ∀ (buf : List Nat) (s : CustomUartState), FifoWF s → CountInv s →
    ∃ s', receive_loop buf s = some s' ∧ FifoWF s' ∧
      s'.rx_count = s.rx_count + ((min buf.length (16 - s.rx_count.toNat) : Nat) : Int) ∧
      queued s' = queued s ++ buf.take (16 - s.rx_count.toNat) ∧
      s'.status = s.status ∧ s'.control = s.control ∧ s'.data = s.data
  | [], s, hwf, _ => ⟨s, rfl, hwf, by simp, by simp, rfl, rfl, rfl⟩
  | b :: rest, s, hwf, hinv => by
    obtain ⟨hlo, hhi⟩ := hinv
    have hR : RX_FIFO_SIZE = 16 := rfl
    have hwf' : s.rx_fifo.length = 16 := hwf
    rw [hR] at hhi
    obtain ⟨c, hc⟩ : ∃ c : Nat, s.rx_count = (c : Int) := ⟨s.rx_count.toNat, by omega⟩
    have hsz : to_size_t s.rx_count = c := by
      rw [to_size_t_of_nonneg _ hlo hhi]; omega
    have htn : s.rx_count.toNat = c := by omega
    by_cases hfull : c < 16
    · have hst : fifo_store s.rx_fifo s.rx_count b = some (s.rx_fifo.set c b) := by
        rw [hc]; exact fifo_store_nat _ _ _ (by omega)
      obtain ⟨s', hs', hwfs, hcnt, hq, h1, h2, h3⟩ :=
        receive_loop_spec rest { s with rx_fifo := s.rx_fifo.set c b, rx_count := s.rx_count + 1 }
          (by simp [FifoWF, hwf', hR]) ⟨by show 0 ≤ s.rx_count + 1; omega,
                                       by show s.rx_count + 1 ≤ 16; omega⟩
      refine ⟨s', ?_, hwfs, ?_, ?_, h1, h2, h3⟩
      · simp only [receive_loop, hsz, hR, if_pos hfull, hst]
        exact hs'
      · rw [hcnt]
        have : (s.rx_count + 1).toNat = c + 1 := by omega
        simp only [this, htn, List.length_cons]
        omega
      · rw [hq]
        have e1 : (s.rx_count + 1).toNat = c + 1 := by omega
        have e2 : 16 - c = (16 - (c + 1)) + 1 := by omega
        simp only [queued, e1, htn]
        rw [e2, List.take_succ_cons]
        have e3 : List.take (c + 1) (s.rx_fifo.set c b) = List.take c s.rx_fifo ++ [b] := by
          have hl : (List.take c s.rx_fifo).length = c := by
            rw [List.length_take]; omega
          have hcc : c + 1 - c = 1 := by omega
          rw [List.set_eq_take_append_cons_drop, if_pos (by omega),
            List.take_append_eq_append_take, List.take_take, hl, hcc]
          simp
        rw [e3]
        simp
    · have hc16 : c = 16 := by omega
      refine ⟨s, ?_, hwf, ?_, ?_, rfl, rfl, rfl⟩
      · simp only [receive_loop, hsz, hR, if_neg hfull]
      · simp [htn, hc16]
      · simp [htn, hc16]

/-- A delivery to an RX-enabled device that respects the capacity bound succeeds: the
first `16 - rx_count` offered bytes are queued behind the present ones, RX_AVAIL is
set when the FIFO is non-empty afterwards, and one interrupt raise is requested
exactly when the FIFO is non-empty afterwards and RX_INT_EN is set. -/
theorem receive_spec (s : CustomUartState) (buf : List Nat) (hwf : FifoWF s)
    (hinv : CountInv s) (hen : s.control &&& CTRL_RX_EN ≠ 0) :
    ∃ s', custom_uart_receive s buf
        = some (s', if 0 < s'.rx_count ∧ s.control &&& CTRL_RX_INT_EN ≠ 0
                    then [Event.irq_raise] else []) ∧
      FifoWF s' ∧
      s'.rx_count = s.rx_count + ((min buf.length (16 - s.rx_count.toNat) : Nat) : Int) ∧
      queued s' = queued s ++ buf.take (16 - s.rx_count.toNat) ∧
      s'.status = (if 0 < s'.rx_count then s.status ||| STATUS_RX_AVAIL else s.status) ∧
      s'.control = s.control ∧ s'.data = s.data := by
  obtain ⟨s1, hs1, hwf1, hcnt, hq, hst, hctl, hdat⟩ := receive_loop_spec buf s hwf hinv
  by_cases hpos : 0 < s1.rx_count
  · refine ⟨{ s1 with status := s1.status ||| STATUS_RX_AVAIL }, ?_, hwf1, hcnt, hq, ?_, hctl, hdat⟩
    · by_cases hi : s.control &&& CTRL_RX_INT_EN = 0
      · simp [custom_uart_receive, hen, hs1, hpos, hctl, hi]
      · simp [custom_uart_receive, hen, hs1, hpos, hctl, hi]
    · simp [hpos, hst]
  · refine ⟨s1, ?_, hwf1, hcnt, hq, ?_, hctl, hdat⟩
    · simp [custom_uart_receive, hen, hs1, hpos]
    · simp [hpos, hst]

/-! ## One step of the device -/

/-- What every register write keeps: the FIFO, its count and RX_AVAIL; an agreement of
TX_READY with TX_EN; and, away from CONTROL with no enable bit set, the whole state. -/
theorem write_spec (s : CustomUartState) (offset value size : Nat) :
    (custom_uart_write s offset value size).1.rx_fifo = s.rx_fifo ∧
    (custom_uart_write s offset value size).1.rx_count = s.rx_count ∧
    (custom_uart_write s offset value size).1.status &&& STATUS_RX_AVAIL
      = s.status &&& STATUS_RX_AVAIL ∧
    (TxReadyInv s → TxReadyInv (custom_uart_write s offset value size).1) ∧
    (offset = UART_CONTROL → TxReadyInv (custom_uart_write s offset value size).1) ∧
    (offset ≠ UART_CONTROL → s.control = 0 → (custom_uart_write s offset value size).1 = s) := by
  have n1 : UART_CONTROL ≠ UART_DATA := by decide
  have n2 : UART_STATUS ≠ UART_DATA := by decide
  have n3 : UART_STATUS ≠ UART_CONTROL := by decide
  have n4 : UART_DATA ≠ UART_CONTROL := by decide
  unfold custom_uart_write
  by_cases hd : offset = UART_DATA
  · subst hd
    by_cases hen : s.control &&& CTRL_TX_EN = 0
    · simp [hen, n4]
    · have hz : s.control ≠ 0 := by
        intro h0; apply hen; rw [h0]; decide
      by_cases hi : s.control &&& CTRL_TX_INT_EN = 0
      · simp [hen, hi, status_set_tx_rx, TxReadyInv, status_set_tx_tx, hz, n4]
      · simp [hen, hi, status_set_tx_rx, TxReadyInv, status_set_tx_tx, hz, n4]
  · by_cases hc : offset = UART_CONTROL
    · subst hc
      by_cases hen : value % 4294967296 &&& CTRL_TX_EN = 0
      · simp [n1, hen, status_clr_tx_rx, TxReadyInv, status_clr_tx_tx]
      · simp [n1, hen, status_set_tx_rx, TxReadyInv, status_set_tx_tx]
    · by_cases hs : offset = UART_STATUS
      · subst hs
        simp [n2, n3]
      · simp [hd, hc, hs]

/-- One operation on a well-formed state within the capacity bound succeeds and keeps
both; it keeps the RX_AVAIL and TX_READY agreements; a CONTROL write establishes the
TX_READY agreement; any other operation keeps `control = 0` with TX_READY set. -/
theorem step_spec (s : CustomUartState) (op : Op) (hwf : FifoWF s) (hinv : CountInv s) :
    ∃ vs s' ev, step s op = some (vs, s', ev) ∧ FifoWF s' ∧ CountInv s' ∧
      (RxAvailInv s → RxAvailInv s') ∧
      (TxReadyInv s → TxReadyInv s') ∧
      (op.isControlWrite = true → TxReadyInv s') ∧
      (op.isControlWrite = false → s.control = 0 → s.status &&& STATUS_TX_READY ≠ 0 →
        s'.control = 0 ∧ s'.status &&& STATUS_TX_READY ≠ 0) := by
  have hR : RX_FIFO_SIZE = 16 := rfl
  cases op with
  | read offset size =>
    by_cases hd : offset = UART_DATA
    · by_cases hpos : 0 < s.rx_count
      · obtain ⟨b, s', hread, -, hcnt, hwf', hctl, -, hst⟩ := read_data_pop s size hwf hinv hpos
        obtain ⟨hlo, hhi⟩ := hinv
        rw [hR] at hhi
        refine ⟨[b], s', [], ?_, hwf', ⟨by omega, by rw [hR]; omega⟩, ?_, ?_, ?_, ?_⟩
        · simp [step, hd, hread]
        · intro hrx
          unfold RxAvailInv at hrx ⊢
          by_cases h1 : s.rx_count = 1
          · rw [hst, if_pos h1, status_clr_rx_rx, hcnt, h1]
            simp
          · rw [hst, if_neg h1, hcnt]
            constructor
            · intro _; omega
            · intro _; exact hrx.mpr hpos
        · intro htx
          unfold TxReadyInv at htx ⊢
          rw [hctl, hst]
          split_ifs
          · rw [status_clr_rx_tx]; exact htx
          · exact htx
        · intro h; simp [Op.isControlWrite] at h
        · intro _ hc0 ht
          refine ⟨by rw [hctl, hc0], ?_⟩
          rw [hst]
          split_ifs
          · rw [status_clr_rx_tx]; exact ht
          · exact ht
      · refine ⟨[0], s, [], ?_, hwf, hinv, id, id, ?_, ?_⟩
        · simp [step, custom_uart_read, hd, hpos]
        · intro h; simp [Op.isControlWrite] at h
        · intro _ hc0 ht; exact ⟨hc0, ht⟩
    · have hstep : ∃ v, step s (Op.read offset size) = some ([v], s, []) := by
        by_cases hs : offset = UART_STATUS
        · exact ⟨s.status, by simp only [step, custom_uart_read, if_neg hd, if_pos hs]⟩
        · by_cases hc : offset = UART_CONTROL
          · exact ⟨s.control, by simp only [step, custom_uart_read, if_neg hd, if_neg hs, if_pos hc]⟩
          · exact ⟨0, by simp only [step, custom_uart_read, if_neg hd, if_neg hs, if_neg hc]⟩
      obtain ⟨v, hv⟩ := hstep
      refine ⟨[v], s, [], hv, hwf, hinv, id, id, ?_, ?_⟩
      · intro h; simp [Op.isControlWrite] at h
      · intro _ hc0 ht; exact ⟨hc0, ht⟩
  | write offset value size =>
    obtain ⟨hf, hc, hrx, htx, hcw, hid⟩ := write_spec s offset value size
    refine ⟨[], (custom_uart_write s offset value size).1,
      (custom_uart_write s offset value size).2, rfl, ?_, ?_, ?_, htx, ?_, ?_⟩
    · unfold FifoWF; rw [hf]; exact hwf
    · unfold CountInv; rw [hc]; exact hinv
    · intro h
      unfold RxAvailInv at h ⊢
      rw [hrx, hc]; exact h
    · intro h
      apply hcw
      simpa [Op.isControlWrite] using h
    · intro h hc0 ht
      have hne : offset ≠ UART_CONTROL := by simpa [Op.isControlWrite] using h
      rw [hid hne hc0]
      exact ⟨hc0, ht⟩
  | receive buf =>
    by_cases hen : s.control &&& CTRL_RX_EN = 0
    · refine ⟨[], s, [], ?_, hwf, hinv, id, id, ?_, ?_⟩
      · simp [step, custom_uart_receive, hen]
      · intro h; simp [Op.isControlWrite] at h
      · intro _ hc0 ht; exact ⟨hc0, ht⟩
    · obtain ⟨s', hrecv, hwf', hcnt, -, hst, hctl, -⟩ := receive_spec s buf hwf hinv hen
      obtain ⟨hlo, hhi⟩ := hinv
      rw [hR] at hhi
      have htxbit : s'.status &&& STATUS_TX_READY = s.status &&& STATUS_TX_READY := by
        rw [hst]
        split_ifs
        · exact status_set_rx_tx _
        · rfl
      refine ⟨[], s', (if 0 < s'.rx_count ∧ s.control &&& CTRL_RX_INT_EN ≠ 0
                        then [Event.irq_raise] else []), ?_,
        hwf', ⟨by omega, by rw [hR]; omega⟩, ?_, ?_, ?_, ?_⟩
      · simp only [step, hrecv]
      · intro hrx
        unfold RxAvailInv at hrx ⊢
        by_cases hp : 0 < s'.rx_count
        · rw [hst, if_pos hp]
          exact ⟨fun _ => hp, fun _ => status_set_rx_rx _⟩
        · rw [hst, if_neg hp]
          constructor
          · intro h; exact absurd (hrx.mp h) (by omega)
          · intro h; exact absurd h hp
      · intro htx
        unfold TxReadyInv at htx ⊢
        rw [htxbit, hctl]; exact htx
      · intro h; simp [Op.isControlWrite] at h
      · intro _ hc0 ht
        exact ⟨by rw [hctl, hc0], by rw [htxbit]; exact ht⟩

/-- A sequence of operations on a well-formed state within the capacity bound runs to
the end and keeps what each step keeps. -/
theorem run_spec : ∀ (ops : List Op) (s : CustomUartState), FifoWF s → CountInv s →
    ∃ vs s' ev, run ops s = some (vs, s', ev) ∧ FifoWF s' ∧ CountInv s' ∧
      (RxAvailInv s → RxAvailInv s') ∧
      (TxReadyInv s → TxReadyInv s') ∧
      ((∃ op ∈ ops, op.isControlWrite = true) → TxReadyInv s') ∧
      ((∀ op ∈ ops, op.isControlWrite = false) → s.control = 0 →
        s.status &&& STATUS_TX_READY ≠ 0 →
        s'.control = 0 ∧ s'.status &&& STATUS_TX_READY ≠ 0)
  | [], s, hwf, hinv =>
    ⟨[], s, [], rfl, hwf, hinv, id, id, by simp, fun _ hc ht => ⟨hc, ht⟩⟩
  | op :: ops, s, hwf, hinv => by
    obtain ⟨vs, s1, ev, hstep, hwf1, hinv1, hrx1, htx1, hcw1, hnc1⟩ := step_spec s op hwf hinv
    obtain ⟨ws, s2, ev2, hrun, hwf2, hinv2, hrx2, htx2, hcw2, hnc2⟩ := run_spec ops s1 hwf1 hinv1
    refine ⟨vs ++ ws, s2, ev ++ ev2, ?_, hwf2, hinv2, fun h => hrx2 (hrx1 h),
      fun h => htx2 (htx1 h), ?_, ?_⟩
    · simp only [run, hstep, hrun]
    · rintro ⟨o, ho, hcw⟩
      rcases List.mem_cons.mp ho with rfl | hmem
      · exact htx2 (hcw1 hcw)
      · exact hcw2 ⟨o, hmem, hcw⟩
    · intro hall hc ht
      obtain ⟨hc1, ht1⟩ := hnc1 (hall op (List.mem_cons_self _ _)) hc ht
      exact hnc2 (fun o ho => hall o (List.mem_cons_of_mem _ ho)) hc1 ht1

/-- Reading DATA as many times as bytes are queued returns the queue, front first,
empties the FIFO and, if at least one read was made, leaves RX_AVAIL clear. -/
theorem drain_spec : ∀ (sizes : List Nat) (s : CustomUartState), FifoWF s → CountInv s →
    s.rx_count = (sizes.length : Int) →
    ∃ s2, run (sizes.map (fun sz => Op.read UART_DATA sz)) s = some (queued s, s2, []) ∧
      s2.rx_count = 0 ∧ (sizes ≠ [] → s2.status &&& STATUS_RX_AVAIL = 0)
  | [], s, _, _, hc => by
    refine ⟨s, ?_, by simpa using hc, fun h => absurd rfl h⟩
    have : queued s = [] := by
      simp only [List.length_nil, Nat.cast_zero] at hc
      simp [queued, hc]
    simp [run, this]
  | sz :: rest, s, hwf, hinv, hc => by
    have hpos : 0 < s.rx_count := by
      rw [hc]; simp only [List.length_cons]; omega
    obtain ⟨b, s1, hread, hq, hcnt, hwf1, -, -, hst⟩ := read_data_pop s sz hwf hinv hpos
    have hR : RX_FIFO_SIZE = 16 := rfl
    have hinv1 : CountInv s1 := by
      obtain ⟨hlo, hhi⟩ := hinv
      exact ⟨by omega, by rw [hcnt]; omega⟩
    have hc1 : s1.rx_count = (rest.length : Int) := by
      rw [hcnt, hc]; simp only [List.length_cons]; omega
    obtain ⟨s2, hrun, h0, havail⟩ := drain_spec rest s1 hwf1 hinv1 hc1
    refine ⟨s2, ?_, h0, fun _ => ?_⟩
    · simp only [List.map_cons, run, step, hread, hrun, hq]
      rfl
    · by_cases hr : rest = []
      · subst hr
        have h1 : s.rx_count = 1 := by simpa using hc
        have hs2 : s2 = s1 := by
          simp only [List.map_nil, run] at hrun
          injection hrun with h
          injection h with _ h
          injection h with h _
          exact h.symm
        rw [hs2, hst, if_pos h1]
        exact status_clr_rx_rx _
      · exact havail hr

/-! ## Reset -/

/-- Claim C1. For every prior state, `custom_uart_reset` yields data = 0, control = 0,
rx_count = 0 (no byte queued), status exactly TX_READY = 0x1 with RX_AVAIL clear, and
its only request is one interrupt-lower (no raise). -/
theorem reset_postcondition (s : CustomUartState) :
    (custom_uart_reset s).1.data = 0 ∧
    (custom_uart_reset s).1.control = 0 ∧
    (custom_uart_reset s).1.rx_count = 0 ∧
    queued (custom_uart_reset s).1 = [] ∧
    (custom_uart_reset s).1.status = STATUS_TX_READY ∧
    STATUS_TX_READY = 0x1 ∧
    (custom_uart_reset s).1.status &&& STATUS_RX_AVAIL = 0 ∧
    (custom_uart_reset s).2 = [Event.irq_lower] ∧
    raises (custom_uart_reset s).2 = 0 := by
  refine ⟨rfl, rfl, rfl, ?_, rfl, by decide, ?_, rfl, ?_⟩
  · simp [queued, custom_uart_reset]
  · show STATUS_TX_READY &&& STATUS_RX_AVAIL = 0
    decide
  · show raises [Event.irq_lower] = 0
    decide

/-! ## Transmit path -/

/-- Claim C8. With TX_EN clear in CONTROL, a write to DATA of any value and size makes
no request at all (no backend write, no interrupt) and returns the state unchanged. -/
theorem write_data_tx_disabled (s : CustomUartState) (value size : Nat)
    (h : s.control &&& CTRL_TX_EN = 0) :
    custom_uart_write s UART_DATA value size = (s, []) := by
  simp [custom_uart_write, h]

theorem write_data_tx_disabled_witness :
    ({ zeroed with status := 3, control := 0xE, rx_count := 1 } : CustomUartState).control
        &&& CTRL_TX_EN = 0 ∧
    custom_uart_write { zeroed with status := 3, control := 0xE, rx_count := 1 }
        UART_DATA 0x41 4
      = ({ zeroed with status := 3, control := 0xE, rx_count := 1 }, []) :=
  ⟨by decide, write_data_tx_disabled _ 0x41 4 (by decide)⟩

/-- Claim C9. With TX_EN set in CONTROL, a write of `v` to DATA requests exactly one
backend write, of the single byte `v mod 256`, followed by an interrupt raise exactly
when TX_INT_EN is set; afterwards TX_READY is set, RX_AVAIL is as before, and data,
control, the FIFO array and rx_count are unchanged. -/
theorem write_data_tx_enabled (s : CustomUartState) (v size : Nat)
    (h : s.control &&& CTRL_TX_EN ≠ 0) :
    (custom_uart_write s UART_DATA v size).2
        = Event.chr_write [v % 256] ::
            (if s.control &&& CTRL_TX_INT_EN ≠ 0 then [Event.irq_raise] else []) ∧
    (raises (custom_uart_write s UART_DATA v size).2 = 1 ↔ s.control &&& CTRL_TX_INT_EN ≠ 0) ∧
    (raises (custom_uart_write s UART_DATA v size).2 = 0 ↔ s.control &&& CTRL_TX_INT_EN = 0) ∧
    (custom_uart_write s UART_DATA v size).1.status &&& STATUS_TX_READY ≠ 0 ∧
    (custom_uart_write s UART_DATA v size).1.status &&& STATUS_RX_AVAIL
        = s.status &&& STATUS_RX_AVAIL ∧
    (custom_uart_write s UART_DATA v size).1.control = s.control ∧
    (custom_uart_write s UART_DATA v size).1.rx_fifo = s.rx_fifo ∧
    (custom_uart_write s UART_DATA v size).1.rx_count = s.rx_count ∧
    (custom_uart_write s UART_DATA v size).1.data = s.data := by
  have hst : (s.status ||| STATUS_TX_READY) &&& STATUS_TX_READY ≠ 0 := by
    rw [or_and_self]; decide
  have hrx : (s.status ||| STATUS_TX_READY) &&& STATUS_RX_AVAIL
      = s.status &&& STATUS_RX_AVAIL := or_and_disjoint _ _ _ (by decide)
  by_cases hi : s.control &&& CTRL_TX_INT_EN = 0
  · simp [custom_uart_write, h, hi, and_ff, raises, hst, hrx]
  · simp [custom_uart_write, h, hi, and_ff, raises, hst, hrx]

theorem write_data_tx_enabled_witness :
    ({ zeroed with status := 1, control := 0x3 } : CustomUartState).control &&& CTRL_TX_EN ≠ 0 ∧
    (custom_uart_write { zeroed with status := 1, control := 0x3 } UART_DATA 0x41 4).2
      = [Event.chr_write [0x41]] ∧
    (custom_uart_write { zeroed with status := 1, control := 0x3 } UART_DATA 0x41 4).1.status
        &&& STATUS_TX_READY ≠ 0 :=
  ⟨by decide,
   (write_data_tx_enabled { zeroed with status := 1, control := 0x3 } 0x41 4 (by decide)).1,
   (write_data_tx_enabled { zeroed with status := 1, control := 0x3 } 0x41 4 (by decide)).2.2.2.1⟩

/-! ## Receive gating -/

/-- Claim C10. With RX_EN clear in CONTROL, `custom_uart_can_receive` returns 0 and
`custom_uart_receive` of any bytes returns the state unchanged with no request made
(so nothing is queued, RX_AVAIL is not set and no interrupt is raised, whatever
RX_INT_EN is). -/
theorem receive_rx_disabled (s : CustomUartState) (buf : List Nat)
    (h : s.control &&& CTRL_RX_EN = 0) :
    custom_uart_can_receive s = 0 ∧ custom_uart_receive s buf = some (s, []) := by
  simp [custom_uart_can_receive, custom_uart_receive, h]

theorem receive_rx_disabled_witness :
    ({ zeroed with status := 1, control := 0x9 } : CustomUartState).control &&& CTRL_RX_EN = 0 ∧
    custom_uart_can_receive { zeroed with status := 1, control := 0x9 } = 0 ∧
    custom_uart_receive { zeroed with status := 1, control := 0x9 } [0x48, 0x49]
      = some ({ zeroed with status := 1, control := 0x9 }, []) :=
  ⟨by decide, receive_rx_disabled _ [0x48, 0x49] (by decide)⟩

/-! ## Receive FIFO -/

/-- Claim C3. For a state with RX_EN set and 0 <= rx_count <= 16 and any offered bytes,
`custom_uart_receive` succeeds; the queue afterwards is the queue before followed by
the first min(n, 16 - rx_count) offered bytes, rx_count grows by that number, and
`custom_uart_can_receive` then returns 16 minus the new count.  In particular 20 bytes
offered to an empty FIFO leave exactly the first 16 queued and a capacity of 0. -/
theorem receive_deposit_bound (s : CustomUartState) (buf : List Nat) (hwf : FifoWF s)
    (hinv : CountInv s) (hen : s.control &&& CTRL_RX_EN ≠ 0) :
    ∃ s' ev, custom_uart_receive s buf = some (s', ev) ∧
      queued s' = queued s ++ buf.take (min buf.length (16 - s.rx_count.toNat)) ∧
      s'.rx_count = s.rx_count + ((min buf.length (16 - s.rx_count.toNat) : Nat) : Int) ∧
      (queued s').length = s'.rx_count.toNat ∧
      custom_uart_can_receive s' = 16 - s'.rx_count ∧
      (s.rx_count = 0 → buf.length = 20 →
        queued s' = buf.take 16 ∧ custom_uart_can_receive s' = 0) := by
  obtain ⟨s', hrecv, hwf', hcnt, hq, -, hctl, -⟩ := receive_spec s buf hwf hinv hen
  obtain ⟨hlo, hhi⟩ := hinv
  have hR : RX_FIFO_SIZE = 16 := rfl
  have hlen : s'.rx_fifo.length = 16 := hwf'
  rw [hR] at hhi
  have hcan : custom_uart_can_receive s' = 16 - s'.rx_count := by
    have hen' : s'.control &&& CTRL_RX_EN ≠ 0 := by rw [hctl]; exact hen
    have hsz : to_size_t s'.rx_count = s'.rx_count.toNat :=
      to_size_t_of_nonneg _ (by omega) (by omega)
    simp only [custom_uart_can_receive, hen', not_true_eq_false, if_false, hsz, hR, to_int]
    omega
  have hq' : queued s' = queued s ++ buf.take (min buf.length (16 - s.rx_count.toNat)) := by
    rw [hq]
    congr 1
    rcases Nat.le_total buf.length (16 - s.rx_count.toNat) with h | h
    · rw [Nat.min_eq_left h, List.take_of_length_le h, List.take_of_length_le (le_refl _)]
    · rw [Nat.min_eq_right h]
  refine ⟨s', _, hrecv, hq', hcnt, ?_, hcan, ?_⟩
  · simp only [queued, List.length_take, hlen]
    omega
  · intro h0 h20
    constructor
    · rw [hq]
      simp [queued, h0]
    · rw [hcan, hcnt, h0, h20]
      simp

theorem receive_deposit_bound_witness :
    FifoWF { zeroed with control := 0x2 } ∧ CountInv { zeroed with control := 0x2 } ∧
    ({ zeroed with control := 0x2 } : CustomUartState).control &&& CTRL_RX_EN ≠ 0 ∧
    ∃ s' ev, custom_uart_receive { zeroed with control := 0x2 } (List.range 20) = some (s', ev) ∧
      queued s' = queued { zeroed with control := 0x2 } ++
        (List.range 20).take (min (List.range 20).length
          (16 - ({ zeroed with control := 0x2 } : CustomUartState).rx_count.toNat)) ∧
      s'.rx_count = ({ zeroed with control := 0x2 } : CustomUartState).rx_count +
        ((min (List.range 20).length
          (16 - ({ zeroed with control := 0x2 } : CustomUartState).rx_count.toNat) : Nat) : Int) ∧
      (queued s').length = s'.rx_count.toNat ∧
      custom_uart_can_receive s' = 16 - s'.rx_count ∧
      (({ zeroed with control := 0x2 } : CustomUartState).rx_count = 0 →
        (List.range 20).length = 20 →
        queued s' = (List.range 20).take 16 ∧ custom_uart_can_receive s' = 0) :=
  ⟨by decide, by decide, by decide,
   receive_deposit_bound { zeroed with control := 0x2 } (List.range 20)
     (by decide) (by decide) (by decide)⟩

/-- Claim C7 (as amended). With RX_EN and RX_INT_EN set and 0 <= rx_count <= 16,
`custom_uart_receive` succeeds and requests exactly one interrupt raise whenever the
FIFO is non-empty afterwards: for a non-empty byte sequence into an empty FIFO, and
equally for any byte sequence (even an empty one) into an already non-empty FIFO.
Only an empty sequence into an empty FIFO requests no raise. -/
theorem receive_irq_raise (s : CustomUartState) (buf : List Nat) (hwf : FifoWF s)
    (hinv : CountInv s) (hen : s.control &&& CTRL_RX_EN ≠ 0)
    (hint : s.control &&& CTRL_RX_INT_EN ≠ 0) :
    ∃ s' ev, custom_uart_receive s buf = some (s', ev) ∧
      (s.rx_count = 0 → buf ≠ [] → ev = [Event.irq_raise] ∧ raises ev = 1) ∧
      (0 < s.rx_count → ev = [Event.irq_raise] ∧ raises ev = 1) ∧
      (s.rx_count = 0 → buf = [] → ev = [] ∧ raises ev = 0) := by
  obtain ⟨s', hrecv, -, hcnt, -, -, -, -⟩ := receive_spec s buf hwf hinv hen
  obtain ⟨hlo, hhi⟩ := hinv
  have hR : RX_FIFO_SIZE = 16 := rfl
  rw [hR] at hhi
  refine ⟨s', _, hrecv, ?_, ?_, ?_⟩
  · intro h0 hne
    have hl : 0 < buf.length := List.length_pos.mpr hne
    have hpos : 0 < s'.rx_count := by
      rw [hcnt, h0]
      simp only [Int.toNat_zero, Nat.sub_zero, zero_add]
      omega
    simp only [hpos, hint, ne_eq, not_false_eq_true, and_self, if_true, true_and]
    decide
  · intro hp
    have hpos : 0 < s'.rx_count := by omega
    simp only [hpos, hint, ne_eq, not_false_eq_true, and_self, if_true, true_and]
    decide
  · intro h0 hnil
    have hz : ¬ 0 < s'.rx_count := by
      rw [hcnt, h0, hnil]
      simp
    simp only [hz, false_and, if_false, true_and]
    decide

theorem receive_irq_raise_witness :
    FifoWF { zeroed with status := 3, control := 0xA, rx_fifo := 0x48 :: List.replicate 15 0,
                         rx_count := 1 } ∧
    CountInv { zeroed with status := 3, control := 0xA, rx_fifo := 0x48 :: List.replicate 15 0,
                           rx_count := 1 } ∧
    ∃ s' ev, custom_uart_receive
        { zeroed with status := 3, control := 0xA, rx_fifo := 0x48 :: List.replicate 15 0,
                      rx_count := 1 } [0x49] = some (s', ev) ∧
      ((1 : Int) = 0 → [0x49] ≠ ([] : List Nat) → ev = [Event.irq_raise] ∧ raises ev = 1) ∧
      ((0 : Int) < 1 → ev = [Event.irq_raise] ∧ raises ev = 1) ∧
      ((1 : Int) = 0 → [0x49] = ([] : List Nat) → ev = [] ∧ raises ev = 0) :=
  ⟨by decide, by decide,
   receive_irq_raise
     { zeroed with status := 3, control := 0xA, rx_fifo := 0x48 :: List.replicate 15 0,
                   rx_count := 1 } [0x49] (by decide) (by decide) (by decide) (by decide)⟩

/-- Counterexample to claim C7 as stated: with RX_EN and RX_INT_EN set and one byte
already queued, delivering one more byte requests an interrupt raise. -/
theorem receive_irq_nonempty_counterexample :
    ({ zeroed with status := 3, control := 0xA, rx_fifo := 0x48 :: List.replicate 15 0,
                   rx_count := 1 } : CustomUartState).control &&& CTRL_RX_EN ≠ 0 ∧
    ({ zeroed with status := 3, control := 0xA, rx_fifo := 0x48 :: List.replicate 15 0,
                   rx_count := 1 } : CustomUartState).control &&& CTRL_RX_INT_EN ≠ 0 ∧
    queued { zeroed with status := 3, control := 0xA, rx_fifo := 0x48 :: List.replicate 15 0,
                         rx_count := 1 } = [0x48] ∧
    custom_uart_receive
        { zeroed with status := 3, control := 0xA, rx_fifo := 0x48 :: List.replicate 15 0,
                      rx_count := 1 } [0x49]
      = some ({ zeroed with status := 3, control := 0xA,
                            rx_fifo := 0x48 :: 0x49 :: List.replicate 14 0, rx_count := 2 },
              [Event.irq_raise]) ∧
    raises [Event.irq_raise] ≠ 0 := by
  decide

/-- Claim C2. For every byte list `bs` of length 1 to 16 and every state with an empty
FIFO and RX_EN set, `custom_uart_receive` of `bs` succeeds and sets RX_AVAIL; then
length(bs) successive reads of DATA (of any access sizes) succeed and return exactly
the bytes of `bs` in arrival order with no request made, after which rx_count is 0
and RX_AVAIL is clear. -/
theorem fifo_round_trip (s : CustomUartState) (bs sizes : List Nat) (hwf : FifoWF s)
    (hempty : s.rx_count = 0) (hen : s.control &&& CTRL_RX_EN ≠ 0)
    (h1 : 1 ≤ bs.length) (h16 : bs.length ≤ 16) (hsz : sizes.length = bs.length) :
    ∃ s1 ev s2, custom_uart_receive s bs = some (s1, ev) ∧
      s1.status &&& STATUS_RX_AVAIL ≠ 0 ∧
      run (sizes.map (fun sz => Op.read UART_DATA sz)) s1 = some (bs, s2, []) ∧
      s2.rx_count = 0 ∧ queued s2 = [] ∧ s2.status &&& STATUS_RX_AVAIL = 0 := by
  have hinv : CountInv s := by
    unfold CountInv; rw [hempty]; decide
  obtain ⟨s1, hrecv, hwf1, hcnt, hq, hst, -, -⟩ := receive_spec s bs hwf hinv hen
  have hcnt1 : s1.rx_count = (bs.length : Int) := by
    rw [hcnt, hempty]
    simp only [Int.toNat_zero, Nat.sub_zero, zero_add]
    rw [Nat.min_eq_left h16]
  have hpos : 0 < s1.rx_count := by omega
  have hinv1 : CountInv s1 := ⟨by omega, by rw [hcnt1]; exact_mod_cast h16⟩
  have hq1 : queued s1 = bs := by
    rw [hq]
    simp [queued, hempty, List.take_of_length_le h16]
  obtain ⟨s2, hrun, h0, havail⟩ := drain_spec sizes s1 hwf1 hinv1 (by rw [hcnt1, hsz])
  have hne : sizes ≠ [] := by
    intro h
    rw [h] at hsz
    simp only [List.length_nil] at hsz
    omega
  refine ⟨s1, _, s2, hrecv, ?_, ?_, h0, ?_, havail hne⟩
  · rw [hst, if_pos hpos]
    exact status_set_rx_rx _
  · rw [hrun, hq1]
  · simp [queued, h0]

theorem fifo_round_trip_witness :
    FifoWF { zeroed with control := 0x2 } ∧
    ({ zeroed with control := 0x2 } : CustomUartState).rx_count = 0 ∧
    ({ zeroed with control := 0x2 } : CustomUartState).control &&& CTRL_RX_EN ≠ 0 ∧
    ∃ s1 ev s2, custom_uart_receive { zeroed with control := 0x2 } [0x48, 0x49] = some (s1, ev) ∧
      s1.status &&& STATUS_RX_AVAIL ≠ 0 ∧
      run ([4, 4].map (fun sz => Op.read UART_DATA sz)) s1 = some ([0x48, 0x49], s2, []) ∧
      s2.rx_count = 0 ∧ queued s2 = [] ∧ s2.status &&& STATUS_RX_AVAIL = 0 :=
  ⟨by decide, by decide, by decide,
   fifo_round_trip { zeroed with control := 0x2 } [0x48, 0x49] [4, 4]
     (by decide) (by decide) (by decide) (by decide) (by decide) (by decide)⟩

/-! ## Invariants -/

/-- Claim C4. For a device with its 16-entry FIFO array, 0 <= rx_count <= 16 holds after
`custom_uart_reset` from any state, and every operation (a read or a write at any
offset, size and value, a delivery of any bytes) started within the bound succeeds,
which means that every FIFO index it used was inside the array, and ends within the
bound. -/
theorem capacity_invariant (s : CustomUartState) (hwf : FifoWF s) :
    (FifoWF (custom_uart_reset s).1 ∧ CountInv (custom_uart_reset s).1) ∧
    (CountInv s → ∀ op : Op, ∃ vs s' ev, step s op = some (vs, s', ev) ∧
      FifoWF s' ∧ 0 ≤ s'.rx_count ∧ s'.rx_count ≤ 16) := by
  refine ⟨⟨hwf, ?_⟩, ?_⟩
  · show (0 : Int) ≤ 0 ∧ (0 : Int) ≤ (RX_FIFO_SIZE : Int)
    decide
  · intro hinv op
    obtain ⟨vs, s', ev, hstep, hwf', hinv', -⟩ := step_spec s op hwf hinv
    exact ⟨vs, s', ev, hstep, hwf', hinv'.1, hinv'.2⟩

theorem capacity_invariant_witness :
    FifoWF { zeroed with control := 0x2, rx_count := 16 } ∧
    (FifoWF (custom_uart_reset { zeroed with control := 0x2, rx_count := 16 }).1 ∧
      CountInv (custom_uart_reset { zeroed with control := 0x2, rx_count := 16 }).1) ∧
    (CountInv { zeroed with control := 0x2, rx_count := 16 } → ∀ op : Op, ∃ vs s' ev,
      step { zeroed with control := 0x2, rx_count := 16 } op = some (vs, s', ev) ∧
      FifoWF s' ∧ 0 ≤ s'.rx_count ∧ s'.rx_count ≤ 16) :=
  ⟨by decide, capacity_invariant { zeroed with control := 0x2, rx_count := 16 } (by decide)⟩

/-- Claim C5. From the state left by `custom_uart_reset` (on a device with its 16-entry
FIFO array), every sequence of register reads, register writes and backend deliveries
runs to the end, and in the state it reaches RX_AVAIL is set if and only if
rx_count > 0. -/
theorem rx_avail_invariant (s0 : CustomUartState) (ops : List Op) (hwf : FifoWF s0) :
    ∃ vs s ev, run ops (custom_uart_reset s0).1 = some (vs, s, ev) ∧
      (s.status &&& STATUS_RX_AVAIL ≠ 0 ↔ 0 < s.rx_count) := by
  have hinv : CountInv (custom_uart_reset s0).1 := by
    show (0 : Int) ≤ 0 ∧ (0 : Int) ≤ (RX_FIFO_SIZE : Int)
    decide
  have hrx : RxAvailInv (custom_uart_reset s0).1 := by
    show STATUS_TX_READY &&& STATUS_RX_AVAIL ≠ 0 ↔ (0 : Int) < 0
    decide
  obtain ⟨vs, s, ev, hrun, -, -, h, -⟩ := run_spec ops (custom_uart_reset s0).1 hwf hinv
  exact ⟨vs, s, ev, hrun, h hrx⟩

theorem rx_avail_invariant_witness :
    FifoWF zeroed ∧
    ∃ vs s ev,
      run [Op.write UART_CONTROL 0x2 4, Op.receive [0x48], Op.read UART_DATA 4]
        (custom_uart_reset zeroed).1 = some (vs, s, ev) ∧
      (s.status &&& STATUS_RX_AVAIL ≠ 0 ↔ 0 < s.rx_count) :=
  ⟨by decide, rx_avail_invariant zeroed _ (by decide)⟩

/-- Claim C6 (as amended). From the state left by `custom_uart_reset`, every sequence of
register reads, register writes and backend deliveries runs to the end; if the
sequence contains a write to CONTROL, then in the state reached TX_READY is set if and
only if TX_EN is set; if it contains none, then control is still 0 (TX_EN clear) and
TX_READY is set. -/
theorem tx_ready_invariant (s0 : CustomUartState) (ops : List Op) (hwf : FifoWF s0) :
    ∃ vs s ev, run ops (custom_uart_reset s0).1 = some (vs, s, ev) ∧
      ((∃ v sz, Op.write UART_CONTROL v sz ∈ ops) →
        (s.status &&& STATUS_TX_READY ≠ 0 ↔ s.control &&& CTRL_TX_EN ≠ 0)) ∧
      ((¬ ∃ v sz, Op.write UART_CONTROL v sz ∈ ops) →
        s.control = 0 ∧ s.control &&& CTRL_TX_EN = 0 ∧ s.status &&& STATUS_TX_READY ≠ 0) := by
  have hinv : CountInv (custom_uart_reset s0).1 := by
    show (0 : Int) ≤ 0 ∧ (0 : Int) ≤ (RX_FIFO_SIZE : Int)
    decide
  obtain ⟨vs, s, ev, hrun, -, -, -, -, hcw, hnc⟩ := run_spec ops (custom_uart_reset s0).1 hwf hinv
  refine ⟨vs, s, ev, hrun, ?_, ?_⟩
  · rintro ⟨v, sz, hmem⟩
    exact hcw ⟨_, hmem, by simp [Op.isControlWrite]⟩
  · intro hno
    have hall : ∀ op ∈ ops, op.isControlWrite = false := by
      intro op hop
      cases op with
      | read o z => rfl
      | receive b => rfl
      | write o v z =>
        by_cases ho : o = UART_CONTROL
        · exact absurd ⟨v, z, ho ▸ hop⟩ hno
        · simp [Op.isControlWrite, ho]
    obtain ⟨hc, ht⟩ := hnc hall rfl (by show STATUS_TX_READY &&& STATUS_TX_READY ≠ 0; decide)
    refine ⟨hc, ?_, ht⟩
    rw [hc]; decide

theorem tx_ready_invariant_witness :
    FifoWF zeroed ∧
    ∃ vs s ev,
      run [Op.write UART_CONTROL 0x3 4, Op.write UART_DATA 0x41 4, Op.write UART_CONTROL 0x2 4]
        (custom_uart_reset zeroed).1 = some (vs, s, ev) ∧
      ((∃ v sz, Op.write UART_CONTROL v sz ∈
          [Op.write UART_CONTROL 0x3 4, Op.write UART_DATA 0x41 4, Op.write UART_CONTROL 0x2 4]) →
        (s.status &&& STATUS_TX_READY ≠ 0 ↔ s.control &&& CTRL_TX_EN ≠ 0)) ∧
      ((¬ ∃ v sz, Op.write UART_CONTROL v sz ∈
          [Op.write UART_CONTROL 0x3 4, Op.write UART_DATA 0x41 4, Op.write UART_CONTROL 0x2 4]) →
        s.control = 0 ∧ s.control &&& CTRL_TX_EN = 0 ∧ s.status &&& STATUS_TX_READY ≠ 0) :=
  ⟨by decide, tx_ready_invariant zeroed _ (by decide)⟩

/-- Counterexample to claim C6 as stated: in the reset state itself (reached by the
empty sequence of operations) TX_READY is set while TX_EN is clear. -/
theorem tx_ready_reset_counterexample :
    run [] (custom_uart_reset zeroed).1 = some ([], (custom_uart_reset zeroed).1, []) ∧
    (custom_uart_reset zeroed).1.status &&& STATUS_TX_READY ≠ 0 ∧
    (custom_uart_reset zeroed).1.control &&& CTRL_TX_EN = 0 ∧
    ¬ ((custom_uart_reset zeroed).1.status &&& STATUS_TX_READY ≠ 0 ↔
       (custom_uart_reset zeroed).1.control &&& CTRL_TX_EN ≠ 0) := by
  decide

/-! ## Register file -/

theorem and_one_mod32 (v : Nat) : v % 2 ^ 32 &&& 1 = v &&& 1 := by
  rw [Nat.and_one_is_mod, Nat.and_one_is_mod]
  omega

/-- Claim C11. For every state and value `v`, a write to CONTROL stores `v mod 2^32`
whatever the control was before, so that a following CONTROL read of any size returns
it; TX_READY is then set exactly when TX_EN is set in `v`; RX_AVAIL, the FIFO array,
rx_count and data are unchanged; no backend write and no interrupt request is made. -/
theorem write_control_overwrite (s : CustomUartState) (v size size2 : Nat) :
    (custom_uart_write s UART_CONTROL v size).1.control = v % 2 ^ 32 ∧
    (custom_uart_write s UART_CONTROL v size).1.control
      = (custom_uart_write { s with control := 0 } UART_CONTROL v size).1.control ∧
    custom_uart_read (custom_uart_write s UART_CONTROL v size).1 UART_CONTROL size2
      = some (v % 2 ^ 32, (custom_uart_write s UART_CONTROL v size).1, []) ∧
    ((custom_uart_write s UART_CONTROL v size).1.status &&& STATUS_TX_READY ≠ 0
      ↔ v &&& CTRL_TX_EN ≠ 0) ∧
    (custom_uart_write s UART_CONTROL v size).1.status &&& STATUS_RX_AVAIL
      = s.status &&& STATUS_RX_AVAIL ∧
    (custom_uart_write s UART_CONTROL v size).1.rx_fifo = s.rx_fifo ∧
    (custom_uart_write s UART_CONTROL v size).1.rx_count = s.rx_count ∧
    (custom_uart_write s UART_CONTROL v size).1.data = s.data ∧
    (custom_uart_write s UART_CONTROL v size).2 = [] := by
  have n1 : UART_CONTROL ≠ UART_DATA := by decide
  have n3 : UART_CONTROL ≠ UART_STATUS := by decide
  have hbit : v % 4294967296 &&& CTRL_TX_EN = v &&& CTRL_TX_EN := and_one_mod32 v
  by_cases hen : v % 4294967296 &&& CTRL_TX_EN = 0
  · have hv : v &&& CTRL_TX_EN = 0 := by rw [← hbit]; exact hen
    simp [custom_uart_write, custom_uart_read, n1, n3, hen, hv, status_clr_tx_tx,
      status_clr_tx_rx]
  · have hv : ¬ (v &&& CTRL_TX_EN = 0) := by rw [← hbit]; exact hen
    simp [custom_uart_write, custom_uart_read, n1, n3, hen, hv, status_set_tx_tx,
      status_set_tx_rx]

/-- Claim C13. For every state with an empty FIFO (rx_count = 0) and every access size,
a read of DATA succeeds, returns 0, makes no request and leaves the state unchanged. -/
theorem read_data_empty (s : CustomUartState) (size : Nat) (h : s.rx_count = 0) :
    custom_uart_read s UART_DATA size = some (0, s, []) := by
  simp [custom_uart_read, h]

theorem read_data_empty_witness :
    ({ zeroed with data := 0x49, status := 1, control := 0x2 } : CustomUartState).rx_count = 0 ∧
    custom_uart_read { zeroed with data := 0x49, status := 1, control := 0x2 } UART_DATA 1
      = some (0, { zeroed with data := 0x49, status := 1, control := 0x2 }, []) :=
  ⟨by decide, read_data_empty _ 1 (by decide)⟩

/-- Claim C15. For every offset other than 0x00, 0x04 and 0x08 and every size and value,
`custom_uart_read` succeeds and returns 0 and `custom_uart_write` has no effect: in
both cases the state is unchanged and no backend write or interrupt request is made. -/
theorem invalid_offset_ignored (s : CustomUartState) (offset size value : Nat)
    (h0 : offset ≠ 0x00) (h4 : offset ≠ 0x04) (h8 : offset ≠ 0x08) :
    custom_uart_read s offset size = some (0, s, []) ∧
    custom_uart_write s offset value size = (s, []) := by
  have hd : offset ≠ UART_DATA := h0
  have hs : offset ≠ UART_STATUS := h4
  have hc : offset ≠ UART_CONTROL := h8
  constructor
  · simp only [custom_uart_read, if_neg hd, if_neg hs, if_neg hc]
  · simp only [custom_uart_write, if_neg hd, if_neg hs, if_neg hc, ite_self]

theorem invalid_offset_ignored_witness :
    (0x0C : Nat) ≠ 0x00 ∧ (0x0C : Nat) ≠ 0x04 ∧ (0x0C : Nat) ≠ 0x08 ∧
    custom_uart_read { zeroed with status := 3, control := 0xF, rx_count := 2 } 0x0C 4
      = some (0, { zeroed with status := 3, control := 0xF, rx_count := 2 }, []) ∧
    custom_uart_write { zeroed with status := 3, control := 0xF, rx_count := 2 } 0x0C 0x41 4
      = ({ zeroed with status := 3, control := 0xF, rx_count := 2 }, []) :=
  ⟨by decide, by decide, by decide,
   invalid_offset_ignored _ 0x0C 4 0x41 (by decide) (by decide) (by decide)⟩

/-- Claim C16. For every state, value and size, a write to STATUS returns the state
unchanged and makes no request; a STATUS read after it returns the same value as a
STATUS read before it. -/
theorem write_status_ignored (s : CustomUartState) (value size size2 : Nat) :
    custom_uart_write s UART_STATUS value size = (s, []) ∧
    custom_uart_read (custom_uart_write s UART_STATUS value size).1 UART_STATUS size2
      = custom_uart_read s UART_STATUS size2 ∧
    custom_uart_read s UART_STATUS size2 = some (s.status, s, []) := by
  have n1 : UART_STATUS ≠ UART_DATA := by decide
  have n2 : UART_STATUS ≠ UART_CONTROL := by decide
  have hw : custom_uart_write s UART_STATUS value size = (s, []) := by
    simp [custom_uart_write, n1, n2]
  refine ⟨hw, by rw [hw], ?_⟩
  simp [custom_uart_read, n1]

/-! ## Requests made by one step -/

theorem shift_loop_mem : ∀ (n : Nat) (i : Int) (a a' : List Nat) (P : Nat → Prop),
    shift_loop n i a = some a' → (∀ x ∈ a, P x) → ∀ x ∈ a', P x
  | 0, _, a, a', P, h, hP => by
    simp only [shift_loop, Option.some.injEq] at h
    rw [← h]; exact hP
  | n + 1, i, a, a', P, h, hP => by
    simp only [shift_loop] at h
    cases hl : fifo_load a (i + 1) with
    | none => simp only [hl] at h; exact absurd h (by simp)
    | some v =>
      simp only [hl] at h
      cases hs : fifo_store a i v with
      | none => simp only [hs] at h; exact absurd h (by simp)
      | some a1 =>
        simp only [hs] at h
        have hv : v ∈ a := by
          unfold fifo_load at hl
          split_ifs at hl
          exact List.mem_iff_getElem?.mpr ⟨_, hl⟩
        have ha1 : ∀ x ∈ a1, P x := by
          unfold fifo_store at hs
          split_ifs at hs
          simp only [Option.some.injEq] at hs
          intro x hx
          rw [← hs] at hx
          rcases List.mem_or_eq_of_mem_set hx with h1 | h1
          · exact hP x h1
          · rw [h1]; exact hP v hv
        exact shift_loop_mem n (i + 1) a1 a' P h ha1

/-- A register read makes no request, changes no control bit, and can only clear
RX_AVAIL in the status; its FIFO entries come from the FIFO before. -/
theorem read_frame (s : CustomUartState) (offset size v : Nat) (s' : CustomUartState)
    (ev : List Event) (h : custom_uart_read s offset size = some (v, s', ev)) :
    ev = [] ∧ s'.control = s.control ∧ s'.data = s.data ∧
    (s'.status = s.status ∨ s'.status = s.status &&& not32 STATUS_RX_AVAIL) ∧
    (∀ P : Nat → Prop, (∀ x ∈ s.rx_fifo, P x) → ∀ x ∈ s'.rx_fifo, P x) := by
  unfold custom_uart_read at h
  split_ifs at h with h1 h2 h3 h4
  · cases hl : fifo_load s.rx_fifo 0 with
    | none => simp only [hl] at h; exact absurd h (by simp)
    | some b =>
      simp only [hl] at h
      cases hs : shift_loop (s.rx_count - 1).toNat 0 s.rx_fifo with
      | none => simp only [hs] at h; exact absurd h (by simp)
      | some a =>
        simp only [hs] at h
        split_ifs at h
        · simp only [Option.some.injEq, Prod.mk.injEq] at h
          obtain ⟨-, hs', hev⟩ := h
          subst hs'
          exact ⟨hev.symm, rfl, rfl, Or.inr rfl, fun P hP => shift_loop_mem _ _ _ _ P hs hP⟩
        · simp only [Option.some.injEq, Prod.mk.injEq] at h
          obtain ⟨-, hs', hev⟩ := h
          subst hs'
          exact ⟨hev.symm, rfl, rfl, Or.inl rfl, fun P hP => shift_loop_mem _ _ _ _ P hs hP⟩
  all_goals
    simp only [Option.some.injEq, Prod.mk.injEq] at h
    obtain ⟨-, hs', hev⟩ := h
    subst hs'
    exact ⟨hev.symm, rfl, rfl, Or.inl rfl, fun P hP => hP⟩

theorem receive_loop_frame : ∀ (buf : List Nat) (s s' : CustomUartState),
    receive_loop buf s = some s' →
    s'.control = s.control ∧ s'.status = s.status ∧ s'.data = s.data ∧
    (∀ P : Nat → Prop, (∀ b ∈ buf, P b) → (∀ x ∈ s.rx_fifo, P x) → ∀ x ∈ s'.rx_fifo, P x)
  | [], s, s', h => by
    simp only [receive_loop, Option.some.injEq] at h
    subst h
    exact ⟨rfl, rfl, rfl, fun _ _ hP => hP⟩
  | b :: rest, s, s', h => by
    simp only [receive_loop] at h
    split_ifs at h
    · cases hs : fifo_store s.rx_fifo s.rx_count b with
      | none => simp only [hs] at h; exact absurd h (by simp)
      | some a =>
        simp only [hs] at h
        obtain ⟨hc, hst, hd, hP⟩ := receive_loop_frame rest _ s' h
        refine ⟨hc, hst, hd, fun P hb hx => ?_⟩
        apply hP P (fun c hc => hb c (List.mem_cons_of_mem _ hc))
        unfold fifo_store at hs
        split_ifs at hs
        simp only [Option.some.injEq] at hs
        intro x hxa
        show P x
        have hxa' : x ∈ a := hxa
        rw [← hs] at hxa'
        rcases List.mem_or_eq_of_mem_set hxa' with h1 | h1
        · exact hx x h1
        · rw [h1]; exact hb b (List.mem_cons_self _ _)
    · simp only [Option.some.injEq] at h
      subst h
      exact ⟨rfl, rfl, rfl, fun _ _ hP => hP⟩

/-- A delivery requests nothing but at most one interrupt raise, and that only with
RX_EN and RX_INT_EN set; it changes no control bit and can only set RX_AVAIL. -/
theorem receive_frame (s : CustomUartState) (buf : List Nat) (s' : CustomUartState)
    (ev : List Event) (h : custom_uart_receive s buf = some (s', ev)) :
    (ev = [] ∨ (ev = [Event.irq_raise] ∧ s.control &&& CTRL_RX_EN ≠ 0 ∧
      s.control &&& CTRL_RX_INT_EN ≠ 0)) ∧
    s'.control = s.control ∧ s'.data = s.data ∧
    (s'.status = s.status ∨ s'.status = s.status ||| STATUS_RX_AVAIL) ∧
    (∀ P : Nat → Prop, (∀ b ∈ buf, P b) → (∀ x ∈ s.rx_fifo, P x) → ∀ x ∈ s'.rx_fifo, P x) := by
  unfold custom_uart_receive at h
  split_ifs at h with hen'
  · cases hl : receive_loop buf s with
    | none => simp only [hl] at h; exact absurd h (by simp)
    | some s1 =>
      simp only [hl] at h
      obtain ⟨hc, hst, hd, hP⟩ := receive_loop_frame buf s s1 hl
      split_ifs at h with hpos hint
      · simp only [Option.some.injEq, Prod.mk.injEq] at h
        obtain ⟨hs', hev⟩ := h
        subst hs'
        refine ⟨Or.inr ⟨hev.symm, hen', ?_⟩, hc, hd, Or.inr (by simp [hst]), hP⟩
        rw [← hc]; exact hint
      · simp only [Option.some.injEq, Prod.mk.injEq] at h
        obtain ⟨hs', hev⟩ := h
        subst hs'
        exact ⟨Or.inl hev.symm, hc, hd, Or.inr (by simp [hst]), hP⟩
      · simp only [Option.some.injEq, Prod.mk.injEq] at h
        obtain ⟨hs', hev⟩ := h
        subst hs'
        exact ⟨Or.inl hev.symm, hc, hd, Or.inl hst, hP⟩
  · simp only [Option.some.injEq, Prod.mk.injEq] at h
    obtain ⟨hs', hev⟩ := h
    subst hs'
    exact ⟨Or.inl hev.symm, rfl, rfl, Or.inl rfl, fun _ _ hP => hP⟩

/-- A register write requests nothing, or one backend write of one byte which, for a
DATA write with TX_EN and TX_INT_EN set, is followed by one interrupt raise. -/
theorem write_events (s : CustomUartState) (offset value size : Nat) :
    (custom_uart_write s offset value size).2 = [] ∨
    (offset = UART_DATA ∧ s.control &&& CTRL_TX_EN ≠ 0 ∧
      ((custom_uart_write s offset value size).2 = [Event.chr_write [value % 256]] ∧
        s.control &&& CTRL_TX_INT_EN = 0 ∨
       (custom_uart_write s offset value size).2
          = [Event.chr_write [value % 256], Event.irq_raise] ∧
        s.control &&& CTRL_TX_INT_EN ≠ 0)) := by
  unfold custom_uart_write
  by_cases hd : offset = UART_DATA
  · by_cases hen : s.control &&& CTRL_TX_EN = 0
    · left; simp [hd, hen]
    · right
      by_cases hi : s.control &&& CTRL_TX_INT_EN = 0
      · simp [hd, hen, hi, and_ff]
      · simp [hd, hen, hi, and_ff]
  · left
    simp only [if_neg hd]
    split_ifs <;> rfl

/-- The requests of one step: none, or those of a transmitting DATA write, or the
single interrupt raise of a delivery with RX_EN and RX_INT_EN set. -/
theorem step_events (s : CustomUartState) (op : Op) (vs : List Nat) (s' : CustomUartState)
    (ev : List Event) (h : step s op = some (vs, s', ev)) :
    ev = [] ∨
    (∃ v sz, op = Op.write UART_DATA v sz ∧ s.control &&& CTRL_TX_EN ≠ 0 ∧
      (ev = [Event.chr_write [v % 256]] ∧ s.control &&& CTRL_TX_INT_EN = 0 ∨
       ev = [Event.chr_write [v % 256], Event.irq_raise] ∧
        s.control &&& CTRL_TX_INT_EN ≠ 0)) ∨
    (∃ buf, op = Op.receive buf ∧ ev = [Event.irq_raise] ∧ s.control &&& CTRL_RX_EN ≠ 0 ∧
      s.control &&& CTRL_RX_INT_EN ≠ 0) := by
  cases op with
  | read offset size =>
    left
    simp only [step] at h
    cases hr : custom_uart_read s offset size with
    | none => simp only [hr] at h; exact absurd h (by simp)
    | some r =>
      obtain ⟨v, s1, ev1⟩ := r
      simp only [hr, Option.some.injEq, Prod.mk.injEq] at h
      rw [← h.2.2]
      exact (read_frame s offset size v s1 ev1 hr).1
  | write offset value size =>
    simp only [step, Option.some.injEq, Prod.mk.injEq] at h
    rcases write_events s offset value size with h0 | ⟨hd, hen, hev⟩
    · left; rw [← h.2.2]; exact h0
    · right; left
      refine ⟨value, size, by rw [hd], hen, ?_⟩
      rw [← h.2.2]; exact hev
  | receive buf =>
    simp only [step] at h
    cases hr : custom_uart_receive s buf with
    | none => simp only [hr] at h; exact absurd h (by simp)
    | some r =>
      obtain ⟨s1, ev1⟩ := r
      simp only [hr, Option.some.injEq, Prod.mk.injEq] at h
      rcases (receive_frame s buf s1 ev1 hr).1 with h0 | ⟨h1, h2, h3⟩
      · left; rw [← h.2.2]; exact h0
      · right; right
        exact ⟨buf, rfl, by rw [← h.2.2]; exact h1, h2, h3⟩

/-- No step requests an interrupt lower. -/
theorem step_no_lower (s : CustomUartState) (op : Op) (vs : List Nat) (s' : CustomUartState)
    (ev : List Event) (h : step s op = some (vs, s', ev)) : Event.irq_lower ∉ ev := by
  rcases step_events s op vs s' ev h with h0 | ⟨v, sz, -, -, h1 | h1⟩ | ⟨buf, -, h1, -⟩
  · rw [h0]; simp
  · rw [h1.1]; simp
  · rw [h1.1]; simp
  · rw [h1]; simp

theorem run_cons_some (op : Op) (ops : List Op) (s : CustomUartState)
    (r : List Nat × CustomUartState × List Event) (h : run (op :: ops) s = some r) :
    ∃ vs s1 ev ws s2 ev2, step s op = some (vs, s1, ev) ∧ run ops s1 = some (ws, s2, ev2) ∧
      r = (vs ++ ws, s2, ev ++ ev2) := by
  simp only [run] at h
  cases h1 : step s op with
  | none => simp only [h1] at h; exact absurd h (by simp)
  | some r1 =>
    obtain ⟨vs, s1, ev⟩ := r1
    simp only [h1] at h
    cases h2 : run ops s1 with
    | none => simp only [h2] at h; exact absurd h (by simp)
    | some r2 =>
      obtain ⟨ws, s2, ev2⟩ := r2
      simp only [h2, Option.some.injEq] at h
      exact ⟨vs, s1, ev, ws, s2, ev2, rfl, h2, h.symm⟩

theorem run_no_lower : ∀ (ops : List Op) (s : CustomUartState) (vs : List Nat)
    (s' : CustomUartState) (ev : List Event),
    run ops s = some (vs, s', ev) → Event.irq_lower ∉ ev
  | [], s, vs, s', ev, h => by
    simp only [run, Option.some.injEq, Prod.mk.injEq] at h
    rw [← h.2.2]; simp
  | op :: ops, s, vs, s', ev, h => by
    obtain ⟨vs1, s1, ev1, ws, s2, ev2, hstep, hrun, hr⟩ := run_cons_some op ops s _ h
    simp only [Prod.mk.injEq] at hr
    rw [hr.2.2]
    intro hmem
    rcases List.mem_append.mp hmem with h1 | h1
    · exact step_no_lower s op vs1 s1 ev1 hstep h1
    · exact run_no_lower ops s1 ws s2 ev2 hrun h1

theorem irq_level_no_lower : ∀ (ev : List Event), Event.irq_lower ∉ ev → irq_level true ev = true
  | [], _ => rfl
  | Event.irq_raise :: ev, h => by
    simp only [irq_level]
    exact irq_level_no_lower ev (fun hm => h (List.mem_cons_of_mem _ hm))
  | Event.irq_lower :: ev, h => absurd (List.mem_cons_self _ _) h
  | Event.chr_write b :: ev, h => by
    simp only [irq_level]
    exact irq_level_no_lower ev (fun hm => h (List.mem_cons_of_mem _ hm))

theorem irq_level_append_lower (l : Bool) (ev : List Event) :
    irq_level l (ev ++ [Event.irq_lower]) = false := by
  induction ev generalizing l with
  | nil => rfl
  | cons e ev ih =>
    cases e <;> simp only [List.cons_append, irq_level] <;> exact ih _

/-! ## Interrupt requests -/

/-- Claim C17. No sequence of register reads, register writes (any offset, value, size)
and backend deliveries ever requests an interrupt lower, so a line that is raised is
still raised after the sequence; every such sequence started within the capacity bound
runs to the end, and only the `custom_uart_reset` that follows lowers the line. -/
theorem irq_lowered_only_by_reset (s : CustomUartState) (ops : List Op) :
    (∀ vs s' ev, run ops s = some (vs, s', ev) →
      Event.irq_lower ∉ ev ∧ irq_level true ev = true) ∧
    (FifoWF s → CountInv s → ∃ vs s' ev, run ops s = some (vs, s', ev) ∧
      Event.irq_lower ∉ ev ∧ irq_level true ev = true ∧
      irq_level true (ev ++ (custom_uart_reset s').2) = false) := by
  have key : ∀ vs s' ev, run ops s = some (vs, s', ev) →
      Event.irq_lower ∉ ev ∧ irq_level true ev = true := by
    intro vs s' ev h
    have hn := run_no_lower ops s vs s' ev h
    exact ⟨hn, irq_level_no_lower ev hn⟩
  refine ⟨key, fun hwf hinv => ?_⟩
  obtain ⟨vs, s', ev, hrun, -⟩ := run_spec ops s hwf hinv
  exact ⟨vs, s', ev, hrun, (key vs s' ev hrun).1, (key vs s' ev hrun).2,
    irq_level_append_lower true ev⟩

theorem irq_lowered_only_by_reset_witness :
    FifoWF { zeroed with control := 0xF, status := 1 } ∧
    CountInv { zeroed with control := 0xF, status := 1 } ∧
    ∃ vs s' ev,
      run [Op.receive [0x48], Op.read UART_DATA 4, Op.write UART_DATA 0x41 4,
           Op.write UART_CONTROL 0 4, Op.read UART_STATUS 4]
        { zeroed with control := 0xF, status := 1 } = some (vs, s', ev) ∧
      Event.irq_lower ∉ ev ∧ irq_level true ev = true ∧
      irq_level true (ev ++ (custom_uart_reset s').2) = false :=
  ⟨by decide, by decide,
   (irq_lowered_only_by_reset { zeroed with control := 0xF, status := 1 }
      [Op.receive [0x48], Op.read UART_DATA 4, Op.write UART_DATA 0x41 4,
       Op.write UART_CONTROL 0 4, Op.read UART_STATUS 4]).2 (by decide) (by decide)⟩

/-- Claim C18. Whenever a register read, register write or backend delivery requests an
interrupt raise, it is a DATA write made while TX_INT_EN is set or a delivery made
while RX_INT_EN is set; from a state with TX_INT_EN and RX_INT_EN both clear no such
operation requests a raise.  Every such operation started within the capacity bound
does return. -/
theorem irq_raise_gated (s : CustomUartState) (op : Op) :
    (∀ vs s' ev, step s op = some (vs, s', ev) →
      (Event.irq_raise ∈ ev →
        ((∃ v sz, op = Op.write UART_DATA v sz) ∧ s.control &&& CTRL_TX_INT_EN ≠ 0) ∨
        ((∃ buf, op = Op.receive buf) ∧ s.control &&& CTRL_RX_INT_EN ≠ 0)) ∧
      (s.control &&& CTRL_TX_INT_EN = 0 → s.control &&& CTRL_RX_INT_EN = 0 →
        Event.irq_raise ∉ ev ∧ raises ev = 0)) ∧
    (FifoWF s → CountInv s → ∃ vs s' ev, step s op = some (vs, s', ev)) := by
  refine ⟨fun vs s' ev h => ?_, fun hwf hinv => ?_⟩
  · have hcount : Event.irq_raise ∉ ev → raises ev = 0 := fun hn =>
      List.count_eq_zero_of_not_mem hn
    rcases step_events s op vs s' ev h with h0 | ⟨v, sz, hop, -, h1 | h1⟩ | ⟨buf, hop, h1, -, h3⟩
    · subst h0
      exact ⟨fun hm => absurd hm (by simp), fun _ _ => ⟨by simp, by decide⟩⟩
    · have hn : Event.irq_raise ∉ ev := by rw [h1.1]; simp
      exact ⟨fun hm => absurd hm hn, fun _ _ => ⟨hn, hcount hn⟩⟩
    · exact ⟨fun _ => Or.inl ⟨⟨v, sz, hop⟩, h1.2⟩, fun ht _ => absurd ht h1.2⟩
    · exact ⟨fun _ => Or.inr ⟨⟨buf, hop⟩, h3⟩, fun _ hr => absurd hr h3⟩
  · obtain ⟨vs, s', ev, hstep, -⟩ := step_spec s op hwf hinv
    exact ⟨vs, s', ev, hstep⟩

theorem irq_raise_gated_witness :
    FifoWF { zeroed with control := 0x3, status := 1 } ∧
    CountInv { zeroed with control := 0x3, status := 1 } ∧
    ∃ vs s' ev, step { zeroed with control := 0x3, status := 1 } (Op.receive [0x48])
      = some (vs, s', ev) :=
  ⟨by decide, by decide,
   (irq_raise_gated { zeroed with control := 0x3, status := 1 } (Op.receive [0x48])).2
     (by decide) (by decide)⟩

/-! ## Reading DATA past the last byte -/

/-- Claim C14 (as amended). After bytes b1..bn (1 <= n <= 16) are delivered into an
empty RX-enabled FIFO and n DATA reads have returned them, a further DATA read (FIFO
now empty) succeeds and returns 0, not the last byte read, and leaves the state as it
is; a STATUS read then returns a status with RX_AVAIL clear. -/
theorem read_after_drain (s : CustomUartState) (bs sizes : List Nat) (size size2 : Nat)
    (hwf : FifoWF s) (hempty : s.rx_count = 0) (hen : s.control &&& CTRL_RX_EN ≠ 0)
    (h1 : 1 ≤ bs.length) (h16 : bs.length ≤ 16) (hsz : sizes.length = bs.length) :
    ∃ s1 ev s2, custom_uart_receive s bs = some (s1, ev) ∧
      run (sizes.map (fun sz => Op.read UART_DATA sz)) s1 = some (bs, s2, []) ∧
      custom_uart_read s2 UART_DATA size = some (0, s2, []) ∧
      custom_uart_read s2 UART_STATUS size2 = some (s2.status, s2, []) ∧
      s2.status &&& STATUS_RX_AVAIL = 0 := by
  have hinv : CountInv s := by
    unfold CountInv; rw [hempty]; decide
  obtain ⟨s1, hrecv, hwf1, hcnt, hq, -, -, -⟩ := receive_spec s bs hwf hinv hen
  have hcnt1 : s1.rx_count = (bs.length : Int) := by
    rw [hcnt, hempty]
    simp only [Int.toNat_zero, Nat.sub_zero, zero_add]
    rw [Nat.min_eq_left h16]
  have hinv1 : CountInv s1 := ⟨by omega, by rw [hcnt1]; exact_mod_cast h16⟩
  have hq1 : queued s1 = bs := by
    rw [hq]
    simp [queued, hempty, List.take_of_length_le h16]
  obtain ⟨s2, hrun, h0, havail⟩ := drain_spec sizes s1 hwf1 hinv1 (by rw [hcnt1, hsz])
  have hne : sizes ≠ [] := by
    intro h
    rw [h] at hsz
    simp only [List.length_nil] at hsz
    omega
  have n1 : UART_STATUS ≠ UART_DATA := by decide
  refine ⟨s1, _, s2, hrecv, by rw [hrun, hq1], ?_, ?_, havail hne⟩
  · simp [custom_uart_read, h0]
  · simp [custom_uart_read, n1]

theorem read_after_drain_witness :
    FifoWF { zeroed with control := 0x2 } ∧
    ({ zeroed with control := 0x2 } : CustomUartState).rx_count = 0 ∧
    ({ zeroed with control := 0x2 } : CustomUartState).control &&& CTRL_RX_EN ≠ 0 ∧
    ∃ s1 ev s2, custom_uart_receive { zeroed with control := 0x2 } [0x48, 0x49] = some (s1, ev) ∧
      run ([4, 4].map (fun sz => Op.read UART_DATA sz)) s1 = some ([0x48, 0x49], s2, []) ∧
      custom_uart_read s2 UART_DATA 4 = some (0, s2, []) ∧
      custom_uart_read s2 UART_STATUS 4 = some (s2.status, s2, []) ∧
      s2.status &&& STATUS_RX_AVAIL = 0 :=
  ⟨by decide, by decide, by decide,
   read_after_drain { zeroed with control := 0x2 } [0x48, 0x49] [4, 4] 4 4
     (by decide) (by decide) (by decide) (by decide) (by decide) (by decide)⟩

/-- Counterexample to claim C14 as stated: with CONTROL = 0x2 and the bytes 0x48, 0x49
delivered, the third DATA read returns 0, not 0x49 (the STATUS read after it returns 0,
RX_AVAIL clear). -/
theorem read_after_drain_counterexample :
    run [Op.receive [0x48, 0x49], Op.read UART_DATA 4, Op.read UART_DATA 4,
         Op.read UART_DATA 4, Op.read UART_STATUS 4] { zeroed with control := 0x2 }
      = some ([0x48, 0x49, 0, 0],
              { zeroed with control := 0x2, rx_fifo := 0x49 :: 0x49 :: List.replicate 14 0 },
              []) ∧
    (0 : Nat) ≠ 0x49 := by
  decide

/-! ## The firmware transmit loop -/

theorem read_status_eq (s : CustomUartState) (size : Nat) :
    custom_uart_read s UART_STATUS size = some (s.status, s, []) := by
  have n1 : UART_STATUS ≠ UART_DATA := by decide
  simp [custom_uart_read, n1]

/-- A DATA write of `c` with CONTROL = 0x3: one backend write of `c mod 256`, no
interrupt request, TX_READY stays set. -/
theorem write_data_ctrl3 (s : CustomUartState) (c size : Nat) (hc : s.control = 3) :
    custom_uart_write s UART_DATA c size
      = ({ s with status := s.status ||| STATUS_TX_READY }, [Event.chr_write [c % 256]]) := by
  have h1 : s.control &&& CTRL_TX_EN ≠ 0 := by rw [hc]; decide
  have h2 : s.control &&& CTRL_TX_INT_EN = 0 := by rw [hc]; decide
  simp [custom_uart_write, h1, h2, and_ff]

theorem status_bit0_mod32 (x : Nat) (h : x &&& STATUS_TX_READY ≠ 0) :
    x % 2 ^ 32 &&& STATUS_TX_READY ≠ 0 := by
  have := and_one_mod32 x
  show x % 2 ^ 32 &&& 1 ≠ 0
  rw [this]; exact h

/-! ### Accesses inside and outside the device window -/

theorem status_one_fixed (s : CustomUartState) (h : s.status = 1) :
    ({ s with status := s.status ||| STATUS_TX_READY } : CustomUartState) = s := by
  have e : (1 : Nat) ||| STATUS_TX_READY = 1 := by decide
  cases s
  simp only at h
  subst h
  simp only [e]

/-- A load of the STATUS register of a device mapped at `m`, status being 1. -/
theorem bus_load_status (m : Nat) (other : Nat → Nat → Nat) (b : Board)
    (hst : b.uart.status = 1) :
    bus_load m other b (m + 0x04) 4
      = some (1, { b with log := b.log ++ [Access.load (m + 0x04) 4 1] }) := by
  have hw : m ≤ m + 0x04 ∧ m + 0x04 < m + CUSTOM_UART_MMIO_SIZE := by
    unfold CUSTOM_UART_MMIO_SIZE; omega
  have ho : m + 0x04 - m = UART_STATUS := by
    show m + 4 - m = 4
    omega
  simp only [bus_load, if_pos hw, ho, read_status_eq, hst, List.append_nil]

/-- A store of `c` to the DATA register of a device mapped at `m`, with status 1 and
CONTROL = 0x3: the device is asked for one backend write and stays as it is. -/
theorem bus_store_data (m : Nat) (b : Board) (c : Nat) (hst : b.uart.status = 1)
    (hc : b.uart.control = 3) :
    bus_store m b (m + 0x00) 4 c
      = { b with events := b.events ++ [Event.chr_write [c % 256]],
                 log := b.log ++ [Access.store (m + 0x00) 4 c] } := by
  have hw : m ≤ m + 0x00 ∧ m + 0x00 < m + CUSTOM_UART_MMIO_SIZE := by
    unfold CUSTOM_UART_MMIO_SIZE; omega
  have ho : m + 0x00 - m = UART_DATA := by
    show m + 0 - m = 0
    omega
  simp only [bus_store, if_pos hw, ho, write_data_ctrl3 b.uart c 4 hc,
    status_one_fixed b.uart hst]

/-- A store of 0x3 to the CONTROL register of a device mapped at `m`, in reset state. -/
theorem bus_store_control (m : Nat) (b : Board) (s0 : CustomUartState)
    (hu : b.uart = (custom_uart_reset s0).1) :
    bus_store m b (m + 0x08) 4 3
      = { b with uart := { (custom_uart_reset s0).1 with control := 3 },
                 log := b.log ++ [Access.store (m + 0x08) 4 3] } := by
  have hw : m ≤ m + 0x08 ∧ m + 0x08 < m + CUSTOM_UART_MMIO_SIZE := by
    unfold CUSTOM_UART_MMIO_SIZE; omega
  have ho : m + 0x08 - m = UART_CONTROL := by
    show m + 8 - m = 8
    omega
  have n1 : UART_CONTROL ≠ UART_DATA := by decide
  have e1 : (3 : Nat) &&& CTRL_TX_EN ≠ 0 := by decide
  have hwr : custom_uart_write (custom_uart_reset s0).1 UART_CONTROL 3 4
      = ({ (custom_uart_reset s0).1 with control := 3 }, []) := by
    simp [custom_uart_write, custom_uart_reset, n1, e1]
  simp only [bus_store, if_pos hw, ho, hu, hwr, List.append_nil]

/-! ### The program of `test_custom_uart.c`, whose base is the one the board uses -/

theorem check_putchar_on_device (other : Nat → Nat → Nat) (b : Board) (c : Nat)
    (hst : b.uart.status = 1) (hc : b.uart.control = 3) :
    test_custom_uart.custom_uart_putchar test_custom_uart.CUSTOM_UART_BASE other b c
      = some { b with events := b.events ++ [Event.chr_write [c % 256]],
                      log := b.log ++ [Access.load test_custom_uart.UART_STATUS 4 1,
                                       Access.store test_custom_uart.UART_DATA 4 c] } := by
  have h1 : test_custom_uart.UART_STATUS = test_custom_uart.CUSTOM_UART_BASE + 0x04 := rfl
  have h2 : test_custom_uart.UART_DATA = test_custom_uart.CUSTOM_UART_BASE + 0x00 := rfl
  have hrdy : ¬ ¬ ((1 : Nat) % 2 ^ 32 &&& test_custom_uart.STATUS_TX_READY ≠ 0) := by decide
  unfold test_custom_uart.custom_uart_putchar
  rw [h1, bus_load_status _ other b hst]
  simp only [if_neg hrdy]
  rw [h2, bus_store_data _
    { b with log := b.log ++ [Access.load (test_custom_uart.CUSTOM_UART_BASE + 0x04) 4 1] }
    c hst hc]
  simp only [List.append_assoc, List.singleton_append]

theorem check_puts_on_device (other : Nat → Nat → Nat) : ∀ (str : List Nat) (b : Board),
    (∀ c ∈ str, c ≠ 0) → b.uart.status = 1 → b.uart.control = 3 →
    test_custom_uart.custom_uart_puts test_custom_uart.CUSTOM_UART_BASE other str b
      = some { b with
          events := b.events ++ str.map (fun c => Event.chr_write [c % 256]),
          log := b.log ++ str.flatMap (fun c =>
            [Access.load test_custom_uart.UART_STATUS 4 1,
             Access.store test_custom_uart.UART_DATA 4 c]) }
  | [], b, _, _, _ => by
    simp [test_custom_uart.custom_uart_puts]
  | c :: str, b, hnz, hst, hc => by
    have hc0 : c ≠ 0 := hnz c (List.mem_cons_self _ _)
    simp only [test_custom_uart.custom_uart_puts, if_neg hc0,
      check_putchar_on_device other b c hst hc]
    rw [check_puts_on_device other str
      { b with events := b.events ++ [Event.chr_write [c % 256]],
               log := b.log ++ [Access.load test_custom_uart.UART_STATUS 4 1,
                                Access.store test_custom_uart.UART_DATA 4 c] }
      (fun d hd => hnz d (List.mem_cons_of_mem _ hd)) hst hc]
    simp only [List.map_cons, List.flatMap_cons, List.append_assoc, List.singleton_append,
      List.cons_append, List.nil_append]

/-- On the board of `microbit-custom.c` the transmit loop of `test_custom_uart.c` works
as intended: from the reset state the initialisation makes the three accesses
load STATUS, store CONTROL = 0x3, load STATUS; then every character of `str` costs
one load of STATUS, which returns 1 (TX_READY set), followed by the store of the
character to DATA (the early return is never taken), and the device requests exactly
one backend write per character, in order, and nothing else. -/
theorem test_custom_uart_transmits (s0 : CustomUartState) (other : Nat → Nat → Nat)
    (str : List Nat) (hnz : ∀ c ∈ str, c ≠ 0) :
    ∃ b1, test_custom_uart.custom_uart_init microbit_custom.CUSTOM_UART_BASE other
        (board_at_reset s0) = some b1 ∧
      b1.events = [] ∧
      b1.log = [Access.load 0x60000004 4 1, Access.store 0x60000008 4 3,
                Access.load 0x60000004 4 1] ∧
      test_custom_uart.custom_uart_puts microbit_custom.CUSTOM_UART_BASE other str b1
        = some { b1 with
            events := str.map (fun c => Event.chr_write [c % 256]),
            log := b1.log ++ str.flatMap (fun c =>
              [Access.load 0x60000004 4 1, Access.store 0x60000000 4 c]) } ∧
      ((∀ c ∈ str, c < 256) →
        str.map (fun c => Event.chr_write [c % 256])
          = str.map (fun c => Event.chr_write [c])) := by
  have hb : microbit_custom.CUSTOM_UART_BASE = test_custom_uart.CUSTOM_UART_BASE := rfl
  have h1 : test_custom_uart.UART_STATUS = test_custom_uart.CUSTOM_UART_BASE + 0x04 := rfl
  have h3 : test_custom_uart.UART_CONTROL = test_custom_uart.CUSTOM_UART_BASE + 0x08 := rfl
  have hv : test_custom_uart.CTRL_TX_EN ||| test_custom_uart.CTRL_RX_EN = 3 := by decide
  have hst0 : (board_at_reset s0).uart.status = 1 := rfl
  have hinit : test_custom_uart.custom_uart_init test_custom_uart.CUSTOM_UART_BASE other
      (board_at_reset s0)
      = some { uart := { (custom_uart_reset s0).1 with control := 3 }, events := [],
               log := [Access.load 0x60000004 4 1, Access.store 0x60000008 4 3,
                       Access.load 0x60000004 4 1],
               other_loads := 0 } := by
    unfold test_custom_uart.custom_uart_init
    rw [h1, bus_load_status _ other _ hst0]
    simp only [h3, hv]
    rw [bus_store_control _ _ s0 rfl, bus_load_status _ other _ rfl]
    rfl
  refine ⟨_, by rw [hb]; exact hinit, rfl, rfl, ?_, ?_⟩
  · rw [hb, check_puts_on_device other str _ hnz rfl rfl]
    rfl
  · intro hlt
    apply List.map_congr_left
    intro c hc
    rw [Nat.mod_eq_of_lt (hlt c hc)]

theorem test_custom_uart_transmits_witness :
    (∀ c ∈ [0x48, 0x69, 0x21], c ≠ 0) ∧
    ∃ b1, test_custom_uart.custom_uart_init microbit_custom.CUSTOM_UART_BASE (fun _ _ => 0)
        (board_at_reset zeroed) = some b1 ∧
      b1.events = [] ∧
      b1.log = [Access.load 0x60000004 4 1, Access.store 0x60000008 4 3,
                Access.load 0x60000004 4 1] ∧
      test_custom_uart.custom_uart_puts microbit_custom.CUSTOM_UART_BASE (fun _ _ => 0)
          [0x48, 0x69, 0x21] b1
        = some { b1 with
            events := [0x48, 0x69, 0x21].map (fun c => Event.chr_write [c % 256]),
            log := b1.log ++ [0x48, 0x69, 0x21].flatMap (fun c =>
              [Access.load 0x60000004 4 1, Access.store 0x60000000 4 c]) } ∧
      ((∀ c ∈ [0x48, 0x69, 0x21], c < 256) →
        [0x48, 0x69, 0x21].map (fun c => Event.chr_write [c % 256])
          = [0x48, 0x69, 0x21].map (fun c => Event.chr_write [c])) :=
  ⟨by decide, test_custom_uart_transmits zeroed (fun _ _ => 0) [0x48, 0x69, 0x21] (by decide)⟩

/-! ### The program of `custom_uart_test.c`, whose base is not the one the board uses -/

theorem poll_wait_off_device (other : Nat → Nat → Nat) : ∀ (fuel : Nat) (b r : Board),
    custom_uart_test.wait_tx_ready microbit_custom.CUSTOM_UART_BASE other fuel b = some r →
    r.uart = b.uart ∧ r.events = b.events
  | 0, b, r, h => by
    simp [custom_uart_test.wait_tx_ready] at h
  | fuel + 1, b, r, h => by
    have hw : ¬ (microbit_custom.CUSTOM_UART_BASE ≤ custom_uart_test.UART_STATUS ∧
        custom_uart_test.UART_STATUS
          < microbit_custom.CUSTOM_UART_BASE + CUSTOM_UART_MMIO_SIZE) := by decide
    simp only [custom_uart_test.wait_tx_ready, bus_load, if_neg hw] at h
    split_ifs at h
    · simp only [Option.some.injEq] at h
      rw [← h]
      exact ⟨rfl, rfl⟩
    · have hh := poll_wait_off_device other fuel _ r h
      exact ⟨hh.1, hh.2⟩

theorem poll_store_off_device (b : Board) (c : Nat) :
    (bus_store microbit_custom.CUSTOM_UART_BASE b custom_uart_test.UART_DATA 4 c).uart = b.uart ∧
    (bus_store microbit_custom.CUSTOM_UART_BASE b custom_uart_test.UART_DATA 4 c).events
      = b.events := by
  have hw : ¬ (microbit_custom.CUSTOM_UART_BASE ≤ custom_uart_test.UART_DATA ∧
      custom_uart_test.UART_DATA
        < microbit_custom.CUSTOM_UART_BASE + CUSTOM_UART_MMIO_SIZE) := by decide
  simp only [bus_store, if_neg hw, and_self]

/-- On the board of `microbit-custom.c` no access of the program of
`custom_uart_test.c` reaches the device, whatever the rest of the bus answers and
whatever the loop bound: when `custom_uart_puts` returns, the device is in the state
it was in and has been asked for nothing. -/
theorem poll_puts_off_device (other : Nat → Nat → Nat) (fuel : Nat) :
    ∀ (str : List Nat) (b r : Board),
    custom_uart_test.custom_uart_puts microbit_custom.CUSTOM_UART_BASE other fuel str b = some r →
    r.uart = b.uart ∧ r.events = b.events
  | [], b, r, h => by
    simp only [custom_uart_test.custom_uart_puts, Option.some.injEq] at h
    rw [← h]
    exact ⟨rfl, rfl⟩
  | c :: str, b, r, h => by
    simp only [custom_uart_test.custom_uart_puts] at h
    split_ifs at h
    · simp only [Option.some.injEq] at h
      rw [← h]
      exact ⟨rfl, rfl⟩
    · unfold custom_uart_test.custom_uart_putchar at h
      cases hwt : custom_uart_test.wait_tx_ready microbit_custom.CUSTOM_UART_BASE other fuel b with
      | none => simp only [hwt] at h; exact absurd h (by simp)
      | some b1 =>
        simp only [hwt] at h
        obtain ⟨h1, h2⟩ := poll_wait_off_device other fuel b b1 hwt
        obtain ⟨h3, h4⟩ := poll_store_off_device b1 c
        obtain ⟨h5, h6⟩ := poll_puts_off_device other fuel str _ r h
        exact ⟨by rw [h5, h3, h1], by rw [h6, h4, h2]⟩

theorem poll_putchar_if_mapped (other : Nat → Nat → Nat) (fuel : Nat) (b : Board) (c : Nat)
    (hst : b.uart.status = 1) (hc : b.uart.control = 3) :
    custom_uart_test.custom_uart_putchar custom_uart_test.CUSTOM_UART_BASE other (fuel + 1) b c
      = some { b with events := b.events ++ [Event.chr_write [c % 256]],
                      log := b.log ++ [Access.load custom_uart_test.UART_STATUS 4 1,
                                       Access.store custom_uart_test.UART_DATA 4 c] } := by
  have h1 : custom_uart_test.UART_STATUS = custom_uart_test.CUSTOM_UART_BASE + 0x04 := rfl
  have h2 : custom_uart_test.UART_DATA = custom_uart_test.CUSTOM_UART_BASE + 0x00 := rfl
  have hrdy : ¬ ¬ ((1 : Nat) % 2 ^ 32 &&& custom_uart_test.STATUS_TX_READY ≠ 0) := by decide
  unfold custom_uart_test.custom_uart_putchar custom_uart_test.wait_tx_ready
  rw [h1, bus_load_status _ other b hst]
  simp only [if_neg hrdy]
  rw [h2, bus_store_data _
    { b with log := b.log ++ [Access.load (custom_uart_test.CUSTOM_UART_BASE + 0x04) 4 1] }
    c hst hc]
  simp only [List.append_assoc, List.singleton_append]

/-- Were the device mapped at the base `custom_uart_test.c` uses, the transmit loop of
that program would work as intended: with CONTROL = 0x3 every character costs exactly one
load of STATUS, which returns 1 (the wait loop never spins, whatever its bound),
followed by the store of the character, and the device requests one backend write
per character, in order. -/
theorem poll_puts_if_mapped (other : Nat → Nat → Nat) (fuel : Nat) :
    ∀ (str : List Nat) (b : Board),
    (∀ c ∈ str, c ≠ 0) → b.uart.status = 1 → b.uart.control = 3 →
    custom_uart_test.custom_uart_puts custom_uart_test.CUSTOM_UART_BASE other (fuel + 1) str b
      = some { b with
          events := b.events ++ str.map (fun c => Event.chr_write [c % 256]),
          log := b.log ++ str.flatMap (fun c =>
            [Access.load custom_uart_test.UART_STATUS 4 1,
             Access.store custom_uart_test.UART_DATA 4 c]) }
  | [], b, _, _, _ => by
    simp [custom_uart_test.custom_uart_puts]
  | c :: str, b, hnz, hst, hc => by
    have hc0 : c ≠ 0 := hnz c (List.mem_cons_self _ _)
    simp only [custom_uart_test.custom_uart_puts, if_neg hc0,
      poll_putchar_if_mapped other fuel b c hst hc]
    rw [poll_puts_if_mapped other fuel str
      { b with events := b.events ++ [Event.chr_write [c % 256]],
               log := b.log ++ [Access.load custom_uart_test.UART_STATUS 4 1,
                                Access.store custom_uart_test.UART_DATA 4 c] }
      (fun d hd => hnz d (List.mem_cons_of_mem _ hd)) hst hc]
    simp only [List.map_cons, List.flatMap_cons, List.append_assoc, List.singleton_append,
      List.cons_append, List.nil_append]

/-- The same from the reset state, the initialisation included: with the device
mapped at 0x50000000 the program makes the store of 0x3 to CONTROL and then, per
character, one load of STATUS and one store to DATA, and the device requests one
backend write per character, in order. -/
theorem poll_transmits_if_mapped (s0 : CustomUartState) (other : Nat → Nat → Nat)
    (fuel : Nat) (str : List Nat) (hnz : ∀ c ∈ str, c ≠ 0) :
    custom_uart_test.custom_uart_puts custom_uart_test.CUSTOM_UART_BASE other (fuel + 1) str
        (custom_uart_test.custom_uart_init custom_uart_test.CUSTOM_UART_BASE (board_at_reset s0))
      = some { uart := { (custom_uart_reset s0).1 with control := 3 },
               events := str.map (fun c => Event.chr_write [c % 256]),
               log := Access.store 0x50000008 4 3 :: str.flatMap (fun c =>
                 [Access.load 0x50000004 4 1, Access.store 0x50000000 4 c]),
               other_loads := 0 } := by
  have h3 : custom_uart_test.UART_CONTROL = custom_uart_test.CUSTOM_UART_BASE + 0x08 := rfl
  have hv : custom_uart_test.CTRL_TX_EN ||| custom_uart_test.CTRL_RX_EN = 3 := by decide
  unfold custom_uart_test.custom_uart_init
  rw [h3, hv, bus_store_control _ _ s0 rfl, poll_puts_if_mapped other fuel str _ hnz rfl rfl]
  rfl

/-- Claim C12, the code at a failing input. On the board of `microbit-custom.c`
(device at 0x60000000) and from the reset state, the program of `custom_uart_test.c`
(registers at 0x50000000) sending the two characters 0x48, 0x69: if the rest of the
bus answers 1 to every load, its five accesses all go past the device, which stays in
its reset state (CONTROL still 0) and is asked for no backend write, instead of the
two the claim states; if the rest of the bus answers 0, the wait loop uses up its
bound. -/
theorem custom_uart_test_misses_device :
    custom_uart_test.custom_uart_puts microbit_custom.CUSTOM_UART_BASE (fun _ _ => 1) 1
        [0x48, 0x69]
        (custom_uart_test.custom_uart_init microbit_custom.CUSTOM_UART_BASE
          (board_at_reset zeroed))
      = some { uart := (custom_uart_reset zeroed).1, events := [],
               log := [Access.store 0x50000008 4 3,
                       Access.load 0x50000004 4 1, Access.store 0x50000000 4 0x48,
                       Access.load 0x50000004 4 1, Access.store 0x50000000 4 0x69],
               other_loads := 2 } ∧
    (custom_uart_reset zeroed).1.control = 0 ∧
    ([] : List Event) ≠ [0x48, 0x69].map (fun c => Event.chr_write [c % 256]) ∧
    custom_uart_test.custom_uart_puts microbit_custom.CUSTOM_UART_BASE (fun _ _ => 0) 8
        [0x48, 0x69]
        (custom_uart_test.custom_uart_init microbit_custom.CUSTOM_UART_BASE
          (board_at_reset zeroed))
      = none := by
  decide

/-! ## Access width -/

theorem or_le_three (x m : Nat) (hx : x ≤ 3) (hm : m ≤ 3) : x ||| m ≤ 3 := by
  interval_cases x <;> interval_cases m <;> decide

theorem write_range (s : CustomUartState) (offset value size : Nat) (h : RangeInv s) :
    RangeInv (custom_uart_write s offset value size).1 := by
  obtain ⟨hst, hc, hb⟩ := h
  have h1 : s.status ||| STATUS_TX_READY ≤ 3 := or_le_three _ _ hst (by decide)
  have h2 : s.status &&& not32 STATUS_TX_READY ≤ 3 := le_trans Nat.and_le_left hst
  have h3 : value % 4294967296 < 2 ^ 32 := Nat.mod_lt _ (by decide)
  unfold custom_uart_write
  dsimp only
  split_ifs <;> exact ⟨by first | exact hst | exact h1 | exact h2,
                       by first | exact hc | exact h3, hb⟩

theorem step_range (s : CustomUartState) (op : Op) (vs : List Nat) (s' : CustomUartState)
    (ev : List Event) (h : step s op = some (vs, s', ev)) (hop : op.bytesOk)
    (hr : RangeInv s) : RangeInv s' := by
  obtain ⟨hst, hc, hb⟩ := hr
  cases op with
  | read offset size =>
    simp only [step] at h
    cases hrd : custom_uart_read s offset size with
    | none => simp only [hrd] at h; exact absurd h (by simp)
    | some r =>
      obtain ⟨v, s1, ev1⟩ := r
      simp only [hrd, Option.some.injEq, Prod.mk.injEq] at h
      obtain ⟨-, hcs, -, hss, hP⟩ := read_frame s offset size v s1 ev1 hrd
      rw [← h.2.1]
      refine ⟨?_, by rw [hcs]; exact hc, hP _ hb⟩
      rcases hss with e | e
      · rw [e]; exact hst
      · rw [e]; exact le_trans Nat.and_le_left hst
  | write offset value size =>
    simp only [step, Option.some.injEq, Prod.mk.injEq] at h
    rw [← h.2.1]
    exact write_range s offset value size ⟨hst, hc, hb⟩
  | receive buf =>
    simp only [step] at h
    cases hrc : custom_uart_receive s buf with
    | none => simp only [hrc] at h; exact absurd h (by simp)
    | some r =>
      obtain ⟨s1, ev1⟩ := r
      simp only [hrc, Option.some.injEq, Prod.mk.injEq] at h
      obtain ⟨-, hcs, -, hss, hP⟩ := receive_frame s buf s1 ev1 hrc
      rw [← h.2.1]
      refine ⟨?_, by rw [hcs]; exact hc, hP _ hop hb⟩
      rcases hss with e | e
      · rw [e]; exact hst
      · rw [e]; exact or_le_three _ _ hst (by decide)

theorem run_range : ∀ (ops : List Op) (s : CustomUartState) (vs : List Nat)
    (s' : CustomUartState) (ev : List Event),
    run ops s = some (vs, s', ev) → (∀ op ∈ ops, op.bytesOk) → RangeInv s → RangeInv s'
  | [], s, vs, s', ev, h, _, hr => by
    simp only [run, Option.some.injEq, Prod.mk.injEq] at h
    rw [← h.2.1]; exact hr
  | op :: ops, s, vs, s', ev, h, hops, hr => by
    obtain ⟨vs1, s1, ev1, ws, s2, ev2, hstep, hrun, he⟩ := run_cons_some op ops s _ h
    simp only [Prod.mk.injEq] at he
    rw [he.2.1]
    exact run_range ops s1 ws s2 ev2 hrun (fun o ho => hops o (List.mem_cons_of_mem _ ho))
      (step_range s op vs1 s1 ev1 hstep (hops op (List.mem_cons_self _ _)) hr)

theorem read_control_eq (s : CustomUartState) (size : Nat) :
    custom_uart_read s UART_CONTROL size = some (s.control, s, []) := by
  have n1 : UART_CONTROL ≠ UART_DATA := by decide
  have n2 : UART_CONTROL ≠ UART_STATUS := by decide
  simp [custom_uart_read, n1, n2]

/-- Claim C19 (as amended). `custom_uart_read` does not look at the access size: it
returns the whole stored value.  In every state reached from reset (FIFO entries and
delivered bytes being bytes) and for every size in 1..4: a DATA read returns the front
byte of the FIFO (0 if empty) and a STATUS read the stored status, both below
2^(8*size) and equal to the stored value mod 2^(8*size); a CONTROL read returns the
whole stored control, which is below 2^(8*size) and equal to the stored value mod
2^(8*size) for size 4, and for a smaller size only when the stored control is itself
below 2^(8*size). -/
theorem read_width (s0 : CustomUartState) (ops : List Op) (size : Nat) (hwf : FifoWF s0)
    (hb0 : ∀ x ∈ s0.rx_fifo, x < 256) (hops : ∀ op ∈ ops, op.bytesOk)
    (h1 : 1 ≤ size) (h4 : size ≤ 4) :
    ∃ vs s ev, run ops (custom_uart_reset s0).1 = some (vs, s, ev) ∧
      (∃ v s', custom_uart_read s UART_DATA size = some (v, s', []) ∧
        v = (queued s).headD 0 ∧ v < 2 ^ (8 * size) ∧
        v = (queued s).headD 0 % 2 ^ (8 * size)) ∧
      (custom_uart_read s UART_STATUS size = some (s.status, s, []) ∧
        s.status < 2 ^ (8 * size) ∧ s.status = s.status % 2 ^ (8 * size)) ∧
      (custom_uart_read s UART_CONTROL size = some (s.control, s, []) ∧
        (size = 4 ∨ s.control < 2 ^ (8 * size) →
          s.control < 2 ^ (8 * size) ∧ s.control = s.control % 2 ^ (8 * size))) := by
  have hinv : CountInv (custom_uart_reset s0).1 := by
    show (0 : Int) ≤ 0 ∧ (0 : Int) ≤ (RX_FIFO_SIZE : Int)
    decide
  have hr0 : RangeInv (custom_uart_reset s0).1 :=
    ⟨by show STATUS_TX_READY ≤ 3; decide, by show (0 : Nat) < 2 ^ 32; decide, hb0⟩
  obtain ⟨vs, s, ev, hrun, hwfs, hinvs, -⟩ := run_spec ops (custom_uart_reset s0).1 hwf hinv
  obtain ⟨hst, hc, hb⟩ := run_range ops _ vs s ev hrun hops hr0
  have hpow : 2 ^ 8 ≤ 2 ^ (8 * size) := Nat.pow_le_pow_right (by decide) (by omega)
  have h256 : (256 : Nat) ≤ 2 ^ (8 * size) := hpow
  refine ⟨vs, s, ev, hrun, ?_, ?_, ?_⟩
  · by_cases hpos : 0 < s.rx_count
    · obtain ⟨b, s', hread, hq, -⟩ := read_data_pop s size hwfs hinvs hpos
      have hbq : b ∈ queued s := by rw [hq]; exact List.mem_cons_self _ _
      have hb256 : b < 256 := hb b (List.mem_of_mem_take hbq)
      have hlt : b < 2 ^ (8 * size) := lt_of_lt_of_le hb256 h256
      refine ⟨b, s', hread, by rw [hq]; rfl, hlt, ?_⟩
      rw [hq]
      exact (Nat.mod_eq_of_lt hlt).symm
    · have h0 : s.rx_count = 0 := by
        have := hinvs.1
        omega
      have hq : queued s = [] := by simp [queued, h0]
      refine ⟨0, s, by simp [custom_uart_read, h0], by rw [hq]; rfl, by positivity, ?_⟩
      rw [hq]
      rfl
  · have hlt : s.status < 2 ^ (8 * size) := by omega
    exact ⟨read_status_eq s size, hlt, (Nat.mod_eq_of_lt hlt).symm⟩
  · refine ⟨read_control_eq s size, fun h => ?_⟩
    have hlt : s.control < 2 ^ (8 * size) := by
      rcases h with h | h
      · rw [h]; exact hc
      · exact h
    exact ⟨hlt, (Nat.mod_eq_of_lt hlt).symm⟩

theorem read_width_witness :
    FifoWF zeroed ∧ (∀ x ∈ zeroed.rx_fifo, x < 256) ∧
    (∀ op ∈ [Op.write UART_CONTROL 0x102 4, Op.receive [0x48, 0x49]], op.bytesOk) ∧
    ∃ vs s ev, run [Op.write UART_CONTROL 0x102 4, Op.receive [0x48, 0x49]]
        (custom_uart_reset zeroed).1 = some (vs, s, ev) ∧
      (∃ v s', custom_uart_read s UART_DATA 1 = some (v, s', []) ∧
        v = (queued s).headD 0 ∧ v < 2 ^ (8 * 1) ∧
        v = (queued s).headD 0 % 2 ^ (8 * 1)) ∧
      (custom_uart_read s UART_STATUS 1 = some (s.status, s, []) ∧
        s.status < 2 ^ (8 * 1) ∧ s.status = s.status % 2 ^ (8 * 1)) ∧
      (custom_uart_read s UART_CONTROL 1 = some (s.control, s, []) ∧
        (1 = 4 ∨ s.control < 2 ^ (8 * 1) →
          s.control < 2 ^ (8 * 1) ∧ s.control = s.control % 2 ^ (8 * 1))) :=
  ⟨by decide, by decide, by decide,
   read_width zeroed [Op.write UART_CONTROL 0x102 4, Op.receive [0x48, 0x49]] 1
     (by decide) (by decide) (by decide) (by decide) (by decide)⟩

/-- Counterexample to claim C19 as stated: after CONTROL was written with 0x100, a
1-byte read of CONTROL returns 0x100 from `custom_uart_read`, which is neither below
2^8 nor equal to 0x100 mod 2^8 = 0. -/
theorem read_width_counterexample :
    custom_uart_read (custom_uart_write (custom_uart_reset zeroed).1 UART_CONTROL 0x100 4).1
        UART_CONTROL 1
      = some (0x100, (custom_uart_write (custom_uart_reset zeroed).1 UART_CONTROL 0x100 4).1, []) ∧
    (custom_uart_write (custom_uart_reset zeroed).1 UART_CONTROL 0x100 4).1.control = 0x100 ∧
    ¬ ((0x100 : Nat) < 2 ^ (8 * 1)) ∧ (0x100 : Nat) ≠ 0x100 % 2 ^ (8 * 1) := by
  decide

/-! ## The FIFO as a bounded queue -/

theorem queued_length (s : CustomUartState) (hwf : FifoWF s) (hinv : CountInv s) :
    (queued s).length = s.rx_count.toNat := by
  obtain ⟨hlo, hhi⟩ := hinv
  have hR : RX_FIFO_SIZE = 16 := rfl
  have hlen : s.rx_fifo.length = 16 := hwf
  rw [hR] at hhi
  simp only [queued, List.length_take, hlen]
  omega

/-- A delivery to an RX-enabled device is the push-back of the specification. -/
theorem deliver_refines (s : CustomUartState) (bs : List Nat) (hwf : FifoWF s)
    (hinv : CountInv s) (hen : s.control &&& CTRL_RX_EN ≠ 0) :
    ∃ s' ev, custom_uart_receive s bs = some (s', ev) ∧ FifoWF s' ∧ CountInv s' ∧
      s'.control = s.control ∧ queued s' = SpecQueue.push_back (queued s) bs := by
  obtain ⟨s', hrecv, hwf', hcnt, hq, -, hctl, -⟩ := receive_spec s bs hwf hinv hen
  have hl := queued_length s hwf hinv
  obtain ⟨hlo, hhi⟩ := hinv
  have hR : RX_FIFO_SIZE = 16 := rfl
  rw [hR] at hhi
  refine ⟨s', _, hrecv, hwf', ⟨by omega, by rw [hR]; omega⟩, hctl, ?_⟩
  rw [hq, SpecQueue.push_back, hl]
  rfl

/-- A DATA read is the pop-front of the specification, 0 standing for no byte. -/
theorem read_refines (s : CustomUartState) (size : Nat) (hwf : FifoWF s) (hinv : CountInv s) :
    ∃ v s', custom_uart_read s UART_DATA size = some (v, s', []) ∧ FifoWF s' ∧ CountInv s' ∧
      s'.control = s.control ∧ v = (SpecQueue.pop_front (queued s)).1.getD 0 ∧
      queued s' = (SpecQueue.pop_front (queued s)).2 := by
  by_cases hpos : 0 < s.rx_count
  · obtain ⟨b, s', hread, hq, hcnt, hwf', hctl, -⟩ := read_data_pop s size hwf hinv hpos
    obtain ⟨hlo, hhi⟩ := hinv
    refine ⟨b, s', hread, hwf', ⟨by omega, by omega⟩, hctl, ?_, ?_⟩
    · rw [hq]; rfl
    · rw [hq]; rfl
  · have h0 : s.rx_count = 0 := by
      have := hinv.1
      omega
    have hq : queued s = [] := by simp [queued, h0]
    refine ⟨0, s, by simp [custom_uart_read, h0], hwf, hinv, rfl, ?_, ?_⟩
    · rw [hq]; rfl
    · rw [hq]; rfl

theorem run_refines : ∀ (qops : List SpecQueue.QOp) (s : CustomUartState), FifoWF s →
    CountInv s → s.control &&& CTRL_RX_EN ≠ 0 →
    ∃ vs s' ev, run (qops.map SpecQueue.QOp.toOp) s = some (vs, s', ev) ∧
      vs = (SpecQueue.run qops (queued s)).1 ∧ queued s' = (SpecQueue.run qops (queued s)).2
  | [], s, _, _, _ => ⟨[], s, [], rfl, rfl, rfl⟩
  | SpecQueue.QOp.deliver bs :: qops, s, hwf, hinv, hen => by
    obtain ⟨s1, ev1, hrecv, hwf1, hinv1, hctl, hq⟩ := deliver_refines s bs hwf hinv hen
    obtain ⟨vs, s', ev, hrun, hvs, hqs⟩ := run_refines qops s1 hwf1 hinv1 (by rw [hctl]; exact hen)
    refine ⟨[] ++ vs, s', ev1 ++ ev, ?_, ?_, ?_⟩
    · simp only [List.map_cons, SpecQueue.QOp.toOp, run, step, hrecv, hrun]
    · rw [hvs, hq]; rfl
    · rw [hqs, hq]; rfl
  | SpecQueue.QOp.read_data size :: qops, s, hwf, hinv, hen => by
    obtain ⟨v, s1, hread, hwf1, hinv1, hctl, hv, hq⟩ := read_refines s size hwf hinv
    obtain ⟨vs, s', ev, hrun, hvs, hqs⟩ := run_refines qops s1 hwf1 hinv1 (by rw [hctl]; exact hen)
    refine ⟨[v] ++ vs, s', [] ++ ev, ?_, ?_, ?_⟩
    · simp only [List.map_cons, SpecQueue.QOp.toOp, run, step, hread, hrun]
    · rw [hvs, hq, hv]; rfl
    · rw [hqs, hq]; rfl

/-- Claim C20 (as amended). Under the abstraction `queued` (the first rx_count FIFO
entries, 0 <= rx_count <= 16): reset yields the empty queue from every state; with
RX_EN clear `custom_uart_receive` appends nothing and leaves the state as it is; and
on a device with its 16-entry array within the capacity bound, a DATA read on a
non-empty FIFO returns the head of the queue and leaves exactly its tail (whatever
RX_EN is), with RX_EN set `custom_uart_receive` is the capacity-limited push-back, and
every interleaving of deliveries and DATA reads on a device with RX_EN set runs to the
end, returns the same values as the bounded queue of capacity 16 (0 for a read of the
empty queue) and leaves the same queue. -/
theorem fifo_refines_queue (s : CustomUartState) (qops : List SpecQueue.QOp) :
    queued (custom_uart_reset s).1 = [] ∧
    (s.control &&& CTRL_RX_EN = 0 → ∀ bs, custom_uart_receive s bs = some (s, []) ∧
      ∃ s' ev, custom_uart_receive s bs = some (s', ev) ∧ queued s' = queued s) ∧
    (FifoWF s → CountInv s →
      (∀ size, 0 < s.rx_count → ∃ b s', custom_uart_read s UART_DATA size = some (b, s', []) ∧
        SpecQueue.pop_front (queued s) = (some b, queued s')) ∧
      (s.control &&& CTRL_RX_EN ≠ 0 → ∀ bs, ∃ s' ev, custom_uart_receive s bs = some (s', ev) ∧
        queued s' = SpecQueue.push_back (queued s) bs) ∧
      (s.control &&& CTRL_RX_EN ≠ 0 →
        ∃ vs s' ev, run (qops.map SpecQueue.QOp.toOp) s = some (vs, s', ev) ∧
          vs = (SpecQueue.run qops (queued s)).1 ∧
          queued s' = (SpecQueue.run qops (queued s)).2)) := by
  refine ⟨by simp [queued, custom_uart_reset], ?_, ?_⟩
  · intro hdis bs
    have hrecv : custom_uart_receive s bs = some (s, []) := by
      simp [custom_uart_receive, hdis]
    exact ⟨hrecv, s, [], hrecv, rfl⟩
  · intro hwf hinv
    refine ⟨?_, ?_, fun hen => run_refines qops s hwf hinv hen⟩
    · intro size hpos
      obtain ⟨b, s', hread, hq, -⟩ := read_data_pop s size hwf hinv hpos
      exact ⟨b, s', hread, by rw [hq]; rfl⟩
    · intro hen bs
      obtain ⟨s', ev, hrecv, -, -, -, hq⟩ := deliver_refines s bs hwf hinv hen
      exact ⟨s', ev, hrecv, hq⟩

theorem fifo_refines_queue_witness :
    FifoWF { zeroed with control := 0x2 } ∧ CountInv { zeroed with control := 0x2 } ∧
    ({ zeroed with control := 0x2 } : CustomUartState).control &&& CTRL_RX_EN ≠ 0 ∧
    ∃ vs s' ev,
      run ([SpecQueue.QOp.deliver [1, 2, 3], SpecQueue.QOp.read_data 4,
            SpecQueue.QOp.deliver (List.range 20), SpecQueue.QOp.read_data 1,
            SpecQueue.QOp.read_data 2].map SpecQueue.QOp.toOp)
        { zeroed with control := 0x2 } = some (vs, s', ev) ∧
      vs = (SpecQueue.run [SpecQueue.QOp.deliver [1, 2, 3], SpecQueue.QOp.read_data 4,
            SpecQueue.QOp.deliver (List.range 20), SpecQueue.QOp.read_data 1,
            SpecQueue.QOp.read_data 2] (queued { zeroed with control := 0x2 })).1 ∧
      queued s' = (SpecQueue.run [SpecQueue.QOp.deliver [1, 2, 3], SpecQueue.QOp.read_data 4,
            SpecQueue.QOp.deliver (List.range 20), SpecQueue.QOp.read_data 1,
            SpecQueue.QOp.read_data 2] (queued { zeroed with control := 0x2 })).2 :=
  ⟨by decide, by decide, by decide,
   ((fifo_refines_queue { zeroed with control := 0x2 }
      [SpecQueue.QOp.deliver [1, 2, 3], SpecQueue.QOp.read_data 4,
       SpecQueue.QOp.deliver (List.range 20), SpecQueue.QOp.read_data 1,
       SpecQueue.QOp.read_data 2]).2.2 (by decide) (by decide)).2.2 (by decide)⟩

/-- Counterexample to claim C20 as stated: from the reset state (RX_EN clear) a
delivery of 0x48 followed by a DATA read returns 0 on the device, while the bounded
queue returns 0x48. -/
theorem fifo_refines_queue_counterexample :
    run ([SpecQueue.QOp.deliver [0x48], SpecQueue.QOp.read_data 4].map SpecQueue.QOp.toOp)
        (custom_uart_reset zeroed).1
      = some ([0], (custom_uart_reset zeroed).1, []) ∧
    queued (custom_uart_reset zeroed).1 = [] ∧
    (SpecQueue.run [SpecQueue.QOp.deliver [0x48], SpecQueue.QOp.read_data 4]
        (queued (custom_uart_reset zeroed).1)).1 = [0x48] ∧
    ([0] : List Nat) ≠ [0x48] := by
  decide

/-! ## Polling reads -/

/-- Reading again and again a register whose read returns a stored value and leaves
the state as it is gives that value every time, with the state unchanged and no
request made. -/
theorem run_poll (offset : Nat) (val : CustomUartState → Nat)
    (h : ∀ s size, custom_uart_read s offset size = some (val s, s, [])) :
    ∀ (sizes : List Nat) (s : CustomUartState),
      run (sizes.map (fun sz => Op.read offset sz)) s
        = some (sizes.map (fun _ => val s), s, [])
  | [], _ => rfl
  | sz :: sizes, s => by
    simp only [List.map_cons, run, step, h s sz, run_poll offset val h sizes s,
      List.singleton_append, List.append_nil]

/-- Claim C21. For every state and access size, `custom_uart_read` at offset 0x04
succeeds and returns the stored status, and at offset 0x08 the stored control; in both
cases the state is unchanged and no backend write or interrupt request is made, so
any number of consecutive polls of STATUS, or of CONTROL, returns the same value every
time and leaves the state as it was. -/
theorem read_status_control_pure (s : CustomUartState) (size : Nat) (sizes : List Nat) :
    UART_STATUS = 0x04 ∧ UART_CONTROL = 0x08 ∧
    custom_uart_read s UART_STATUS size = some (s.status, s, []) ∧
    custom_uart_read s UART_CONTROL size = some (s.control, s, []) ∧
    run (sizes.map (fun sz => Op.read UART_STATUS sz)) s
      = some (sizes.map (fun _ => s.status), s, []) ∧
    run (sizes.map (fun sz => Op.read UART_CONTROL sz)) s
      = some (sizes.map (fun _ => s.control), s, []) :=
  ⟨rfl, rfl, read_status_eq s size, read_control_eq s size,
   run_poll UART_STATUS (fun t => t.status) read_status_eq sizes s,
   run_poll UART_CONTROL (fun t => t.control) read_control_eq sizes s⟩

end CustomUart
